import Mathlib

/-!
# aufs dentry private data (fs/aufs/dinfo.c)

A shallow embedding of the per-dentry branch slot table of aufs and the
properties of its operations.

Conventions of the embedding.

* A pointer to a lower dentry (`struct dentry *h_dentry`) is an `Option Nat`:
  `none` is NULL, `some k` is the object with identity `k`; pointer equality is
  equality of these values.
* `aufs_bindex_t` and `int` values are `Int`. A loop counter of type
  `aufs_bindex_t` is a signed 16-bit integer: its increment `bindex++` wraps
  from 32767 to -32768 (`aufs_bindex_incr`).
* The slot array `di_hdentry` is a `List au_hdentry`; its length is the number
  of slots of the allocation.
* An operation whose C execution leaves the allocation (an index outside the
  slot array, a NULL `d_fsdata`, a branch index outside the branch table)
  yields `none` at the outermost `Option`.
* Loops carry a fuel argument next to the loop condition of the source, and
  running out of fuel yields `none`. The fuel a caller passes is enough for
  every execution that ends: the loop of `au_di_alloc` gets its iteration
  count, the loop of `au_find_dbindex` gets the `2 ^ 16` values its counter can
  take (a scan that has not ended after visiting all of them never ends), and
  the loop of `au_di_free`, which advances a slot pointer, gets one more than
  the number of slots (it ends or leaves the array before that).
* The debugging macros (`AuDebugOn`, `DiMustAnyLock`, `DiMustWriteLock`,
  `AuRwMustWriteLock`, `au_dbg_verify_dinode`) expand to nothing in a
  production build and are not embedded.
* Calls that release something (`au_hdput`, `kfree`, `au_cache_free_dinfo`)
  are recorded, in program order, as a list of `Event`s.
* Lock operations are recorded, in program order, as a list of `LockEvent`s,
  and the state of a semaphore is the record of what is held on it; a task
  waiting for a lock is outside the embedding.
* Generations (`unsigned int`) are natural numbers.
-/

namespace Aufs

/-! ## Data model -/

/-- One slot of the table: `struct au_hdentry`. -/
structure au_hdentry where
  hd_dentry : Option Nat
  hd_id : Int
deriving DecidableEq, Repr

/-- State of a reader/writer semaphore: the lock subclass of the writer, if
any, and the lock subclasses of the readers. -/
structure au_rwsem where
  writer : Option Nat
  readers : List Nat
deriving DecidableEq, Repr

/-- Per-dentry information: `struct au_dinfo`. -/
structure au_dinfo where
  di_generation : Nat
  di_rwsem : au_rwsem
  di_bstart : Int
  di_bend : Int
  di_bwh : Int
  di_hdentry : List au_hdentry
deriving DecidableEq, Repr

/-- The part of `struct au_branch` this file reads. -/
structure au_branch where
  br_id : Int
deriving DecidableEq, Repr

/-- The part of the super block (and of its `au_sbinfo`) this file reads. -/
structure super_block where
  si_bend : Int
  si_branch : List au_branch
  si_generation : Nat
deriving DecidableEq, Repr

/-- The part of the aufs inode this file refers to. -/
structure inode where
  ii_rwsem : au_rwsem
  ii_generation : Nat
deriving DecidableEq, Repr

/-- The part of `struct dentry` this file reads and writes. -/
structure dentry where
  d_sb : super_block
  d_inode : Option inode
  d_fsdata : Option au_dinfo
deriving DecidableEq, Repr

/-- A recorded release call. `hdput bindex hd` is `au_hdput` called on the slot
at index `bindex`, whose content at the time of the call is `hd`. -/
inductive Event where
  | hdput (bindex : Int) (hd : au_hdentry)
  | kfree_hdentry
  | cache_free_dinfo
deriving DecidableEq, Repr

/-! ## Helpers declared outside dinfo.c -/

/-- The slot at `di_hdentry + bindex`, `none` when that address is outside the
array. -/
def hdentry_at (hdp : List au_hdentry) (bindex : Int) : Option au_hdentry :=
  if bindex < 0 then none else hdp[bindex.toNat]?

/-- Modelled from the spec: `au_di` (dentry.h, not under src/) is the dentry
private data, `dentry->d_fsdata`. -/
def au_di (d : dentry) : Option au_dinfo := d.d_fsdata

/-- Modelled from the spec: `au_dbstart` (dentry.h, not under src/) reads
`startIndex`, the field `di_bstart`. -/
def au_dbstart (d : dentry) : Option Int := (au_di d).map (fun di => di.di_bstart)

/-- Modelled from the spec: `au_dbend` (dentry.h, not under src/) reads
`endIndex`, the field `di_bend`. -/
def au_dbend (d : dentry) : Option Int := (au_di d).map (fun di => di.di_bend)

/-- Modelled from the spec: `au_sbend` (super.h, not under src/) is the index of
the last branch, so that the current branch count is `au_sbend sb + 1`. -/
def au_sbend (sb : super_block) : Int := sb.si_bend

/-- Modelled from the spec: `au_sigen` (super.h, not under src/) is the current
global configuration generation. -/
def au_sigen (sb : super_block) : Nat := sb.si_generation

/-- Modelled from the spec: `au_sbr` (super.h, not under src/) is the branch
currently at index `bindex` of the branch table. -/
def au_sbr (sb : super_block) (bindex : Int) : Option au_branch :=
  if bindex < 0 then none else sb.si_branch[bindex.toNat]?

/-- Modelled from the spec: `au_hdput` (dentry.h, not under src/) releases the
reference owned by the slot it is given. The call is recorded with the index of
the slot and the content the slot has when the helper runs; the slot is left as
it is. -/
def au_hdput (bindex : Int) (hd : au_hdentry) : Event := Event.hdput bindex hd

/-- Modelled from the spec: `au_rw_write_lock_nested` (rwsem.h, not under src/)
takes the lock for writing at the given position. -/
def au_rw_write_lock_nested (rw : au_rwsem) (lsc : Nat) : au_rwsem :=
  { rw with writer := some lsc }

/-- The kernel allocator `kcalloc`: on success an array of `n` zeroed slots. -/
def kcalloc (n : Int) (ok : Bool) : Option (List au_hdentry) :=
  if ok then some (List.replicate n.toNat { hd_dentry := none, hd_id := 0 }) else none

/-! ## au_di_alloc -/

/-- The loop `for (i = 0; i < nbr; i++) dinfo->di_hdentry[i].hd_id = -1;`. -/
def au_di_alloc_loop (nbr : Int) : Nat → Int → List au_hdentry → Option (List au_hdentry)
  | 0, i, hdp => if i < nbr then none else some hdp
  | fuel + 1, i, hdp =>
    if i < nbr then
      match hdentry_at hdp i with
      | none => none
      | some hd => au_di_alloc_loop nbr fuel (i + 1) (hdp.set i.toNat { hd with hd_id := -1 })
    else some hdp

/-- The function `au_di_alloc`. `cache` is what `au_cache_alloc_dinfo` returns
(`none` for NULL, otherwise the object as the cache hands it out) and
`kcalloc_ok` tells whether the slot array can be allocated. The result is the
returned pointer (`none` for NULL) and the release calls made. -/
def au_di_alloc (cache : Option au_dinfo) (kcalloc_ok : Bool) (sb : super_block) (lsc : Nat) :
    Option (Option au_dinfo × List Event) :=
  match cache with
  | none => some (none, [])
  | some dinfo =>
    let nbr := au_sbend sb + 1
    let nbr := if nbr ≤ 0 then 1 else nbr
    match kcalloc nbr kcalloc_ok with
    | some hdp =>
      match au_di_alloc_loop nbr nbr.toNat 0 hdp with
      | none => none
      | some hdp1 =>
        some (some { dinfo with
                      di_hdentry := hdp1
                      di_rwsem := au_rw_write_lock_nested dinfo.di_rwsem lsc
                      di_bstart := -1
                      di_bend := -1
                      di_bwh := -1 }, [])
    | none => some (none, [Event.cache_free_dinfo])

/-! ## au_h_dptr, au_set_h_dptr, au_find_dbindex -/

/-- The function `au_h_dptr`. -/
def au_h_dptr (d : dentry) (bindex : Int) : Option (Option Nat) :=
  match au_dbstart d, au_di d with
  | some bstart, some dinfo =>
    if bstart < 0 ∨ bindex < bstart then some none
    else
      match hdentry_at dinfo.di_hdentry (0 + bindex) with
      | none => none
      | some hd => some hd.hd_dentry
  | _, _ => none

/-- The function `au_set_h_dptr`: the dentry after the call and the release
calls made. -/
def au_set_h_dptr (d : dentry) (bindex : Int) (h_dentry : Option Nat) :
    Option (dentry × List Event) :=
  match au_di d with
  | none => none
  | some dinfo =>
    match hdentry_at dinfo.di_hdentry bindex with
    | none => none
    | some hd =>
      let ev := au_hdput bindex hd
      let hd1 : au_hdentry := { hd with hd_dentry := h_dentry }
      match h_dentry with
      | some _ =>
        match au_sbr d.d_sb bindex with
        | none => none
        | some br =>
          let hd2 : au_hdentry := { hd1 with hd_id := br.br_id }
          some ({ d with d_fsdata := some { dinfo with
                    di_hdentry := dinfo.di_hdentry.set bindex.toNat hd2 } }, [ev])
      | none =>
        some ({ d with d_fsdata := some { dinfo with
                  di_hdentry := dinfo.di_hdentry.set bindex.toNat hd1 } }, [ev])

/-- Modelled from the spec: `aufs_bindex_t` (a typedef of the headers, not under
src/) is the signed 16-bit branch index; this is its largest value. -/
def aufs_bindex_max : Int := 32767

/-- The increment `bindex++` of a counter of type `aufs_bindex_t`: the sum is
computed as an `int` and stored back in 16 bits, so that the successor of
`aufs_bindex_max` is -32768. -/
def aufs_bindex_incr (bindex : Int) : Int := (bindex + 1 + 32768) % 65536 - 32768

/-- The loop of `au_find_dbindex`:
`for (...; bindex <= bend; bindex++) if (au_h_dptr(dentry, bindex) == h_dentry) return bindex;`
followed by `return -1`. -/
def au_find_dbindex_loop (d : dentry) (h_dentry : Option Nat) (bend : Int) :
    Nat → Int → Option Int
  | 0, bindex => if bindex ≤ bend then none else some (-1)
  | fuel + 1, bindex =>
    if bindex ≤ bend then
      match au_h_dptr d bindex with
      | none => none
      | some p => if p = h_dentry then some bindex
                  else au_find_dbindex_loop d h_dentry bend fuel (aufs_bindex_incr bindex)
    else some (-1)

/-- The function `au_find_dbindex`. The fuel is the number of values of the
counter. -/
def au_find_dbindex (d : dentry) (h_dentry : Option Nat) : Option Int :=
  match au_dbend d, au_dbstart d with
  | some bend, some bstart =>
    au_find_dbindex_loop d h_dentry bend 65536 bstart
  | _, _ => none

/-! ## au_di_free -/

/-- The loop `while (bindex++ <= bend) au_hdput(p++);` of `au_di_free`. The
counter `bindex` is an `aufs_bindex_t` and wraps; `p` is the index of the slot the
pointer `p` designates, which starts at `bindex` and advances without wrapping. -/
def au_di_free_loop (hdp : List au_hdentry) (bend : Int) :
    Nat → Int → Int → Option (List Event)
  | 0, bindex, _ => if bindex ≤ bend then none else some []
  | fuel + 1, bindex, p =>
    if bindex ≤ bend then
      match hdentry_at hdp p with
      | none => none
      | some hd =>
        match au_di_free_loop hdp bend fuel (aufs_bindex_incr bindex) (p + 1) with
        | none => none
        | some evs => some (au_hdput p hd :: evs)
    else some []

/-- The function `au_di_free`: the release calls it makes, in program order.
It writes no field of `dinfo`. The fuel is one more than the number of slots:
each iteration moves the slot pointer one slot further, so the loop has ended
or left the slot array before the fuel is used up. -/
def au_di_free (dinfo : au_dinfo) : Option (List Event) :=
  let bindex := dinfo.di_bstart
  let puts :=
    if 0 ≤ bindex then
      au_di_free_loop dinfo.di_hdentry dinfo.di_bend (dinfo.di_hdentry.length + 1) bindex bindex
    else some []
  match puts with
  | none => none
  | some evs => some (evs ++ [Event.kfree_hdentry, Event.cache_free_dinfo])

/-- Two calls of `au_di_free` on the same object, one after the other: the
release calls of both, in program order. -/
def au_di_free_twice (dinfo : au_dinfo) : Option (List Event) :=
  match au_di_free dinfo with
  | none => none
  | some evs1 =>
    match au_di_free dinfo with
    | none => none
    | some evs2 => some (evs1 ++ evs2)

/-! ## au_di_realloc -/

/-- The value of `sizeof(struct au_hdentry)`: a pointer and an `aufs_bindex_t`,
padded, on a 64-bit target. -/
def sizeof_au_hdentry : Nat := 16

/-- The error number `ENOMEM`. -/
def ENOMEM : Int := 12

/-- Modelled from the spec: `au_kzrealloc` (module.c, not under src/), the
zeroing reallocation behind Resize. `nused` and `new_sz` are byte counts. The
array is only ever grown: when `new_sz` does not exceed `nused` the array is
returned as it is. Otherwise it is reallocated to `new_sz` bytes, the first
`nused` bytes keep their content and the bytes from `nused` on are zeroed, so a
new slot has a NULL reference and the identity 0. The inner `none` is the NULL
returned when the reallocation fails; the outer `none` stands for a `nused`
that exceeds the allocation, whose content would be undefined. -/
def au_kzrealloc (p : List au_hdentry) (nused new_sz : Nat) (krealloc_ok : Bool) :
    Option (Option (List au_hdentry)) :=
  if new_sz ≤ nused then some (some p)
  else if krealloc_ok = false then some none
  else if p.length * sizeof_au_hdentry < nused then none
  else
    some (some (p.take (nused / sizeof_au_hdentry)
      ++ List.replicate ((new_sz - nused) / sizeof_au_hdentry) { hd_dentry := none, hd_id := 0 }))

/-- The function `au_di_realloc`: the returned error and the object after the
call. The two sizes are passed as `unsigned int`, hence taken modulo `2 ^ 32`. -/
def au_di_realloc (dinfo : au_dinfo) (nbr : Int) (krealloc_ok : Bool) :
    Option (Int × au_dinfo) :=
  let err := -ENOMEM
  let sz : Int := ((sizeof_au_hdentry : Int) * (dinfo.di_bend + 1)) % 2 ^ 32
  let sz : Int := if sz = 0 then (sizeof_au_hdentry : Int) else sz
  match au_kzrealloc dinfo.di_hdentry sz.toNat
      ((((sizeof_au_hdentry : Int) * nbr) % 2 ^ 32).toNat) krealloc_ok with
  | none => none
  | some none => some (err, dinfo)
  | some (some hdp) => some (0, { dinfo with di_hdentry := hdp })

/-! ## Sequences of au_set_h_dptr calls -/

/-- A sequence of `au_set_h_dptr` calls, each given as its index and its new
reference, run from left to right: the dentry after the last call and all the
release calls made. -/
def run_set_h_dptr (d : dentry) : List (Int × Option Nat) → Option (dentry × List Event)
  | [] => some (d, [])
  | (bindex, h_dentry) :: rest =>
    match au_set_h_dptr d bindex h_dentry with
    | none => none
    | some (d1, evs1) =>
      match run_set_h_dptr d1 rest with
      | none => none
      | some (d2, evs2) => some (d2, evs1 ++ evs2)

/-! ## Counters over the recorded release calls -/

/-- Number of recorded `au_hdput` calls on the slot at index `bindex`. -/
def hdput_count (bindex : Int) (evs : List Event) : Nat :=
  evs.countP (fun e => match e with
    | Event.hdput i _ => decide (i = bindex)
    | _ => false)

/-- Number of recorded `kfree` calls on the slot array. -/
def kfree_count (evs : List Event) : Nat := evs.count Event.kfree_hdentry

/-- Number of recorded `au_cache_free_dinfo` calls on the info object. -/
def cache_free_count (evs : List Event) : Nat := evs.count Event.cache_free_dinfo

/-! ## Lock positions and au_di_init -/

/-- Modelled from the spec: the lock positions `AuLsc_DI_*` (an enumeration of
dentry.h, not under src/) are the six positions Child, Child2, Child3, Parent,
Parent2, Parent3, numbered in this order from 0. -/
def AuLsc_DI_CHILD : Nat := 0

/-- Modelled from the spec: the position Child2 of the path lock. -/
def AuLsc_DI_CHILD2 : Nat := 1

/-- Modelled from the spec: the position Child3 of the path lock. -/
def AuLsc_DI_CHILD3 : Nat := 2

/-- Modelled from the spec: the position Parent of the path lock. -/
def AuLsc_DI_PARENT : Nat := 3

/-- Modelled from the spec: the position Parent2 of the path lock. -/
def AuLsc_DI_PARENT2 : Nat := 4

/-- Modelled from the spec: the position Parent3 of the path lock. -/
def AuLsc_DI_PARENT3 : Nat := 5

/-- The function `au_di_init`: the returned error, the dentry after the call
and the release calls made. `cache` and `kcalloc_ok` are the two allocation
outcomes of the `au_di_alloc` call inside. -/
def au_di_init (d : dentry) (cache : Option au_dinfo) (kcalloc_ok : Bool) :
    Option (Int × dentry × List Event) :=
  let err : Int := 0
  let sb := d.d_sb
  match au_di_alloc cache kcalloc_ok sb AuLsc_DI_CHILD with
  | none => none
  | some (some dinfo, evs) =>
    some (err, { d with d_fsdata := some { dinfo with di_generation := au_sigen sb } }, evs)
  | some (none, evs) => some (-ENOMEM, d, evs)

/-! ## Generation test -/

/-- The error number `EIO`. -/
def EIO : Int := 5

/-- Modelled from the spec: `au_digen` (dentry.h, not under src/) reads the
generation stamp of the dentry info, the field `di_generation`. -/
def au_digen (d : dentry) : Option Nat := (au_di d).map (fun di => di.di_generation)

/-- Modelled from the spec: `au_iigen_test` (inode.h, not under src/) is the
generation check of the associated object itself: it reports a mismatch, as
`-EIO`, when the inode exists and its own generation differs from `sigen`, and
0 otherwise. -/
def au_iigen_test (ino : Option inode) (sigen : Nat) : Int :=
  match ino with
  | none => 0
  | some i => if i.ii_generation ≠ sigen then - EIO else 0

/-- The function `au_digen_test`. -/
def au_digen_test (d : dentry) (sigen : Nat) : Option Int :=
  match au_digen d with
  | none => none
  | some digen =>
    let err : Int := 0
    if digen ≠ sigen ∨ au_iigen_test d.d_inode sigen ≠ 0 then some (- EIO) else some err

/-- The function `au_update_digen`. -/
def au_update_digen (d : dentry) : Option dentry :=
  match au_di d with
  | none => none
  | some dinfo =>
    some { d with d_fsdata := some { dinfo with di_generation := au_sigen d.d_sb } }

/-! ## Reader/writer semaphores

The state of a semaphore records what is held on it; waiting for another
holder is outside the embedding. Releasing or downgrading a lock that is not
held in the required mode is not defined and yields `none`. -/

/-- One operation on a reader/writer semaphore. -/
inductive rw_op where
  | read_lock (lsc : Nat)
  | write_lock (lsc : Nat)
  | read_unlock
  | write_unlock
  | dgrade_lock
deriving DecidableEq, Repr

/-- A recorded lock operation: on the path lock `di_rwsem` of the dentry info or
on the lock `ii_rwsem` of the inode. -/
inductive LockEvent where
  | di (op : rw_op)
  | ii (op : rw_op)
deriving DecidableEq, Repr

/-- Modelled from the spec: `au_rw_read_lock_nested` (rwsem.h, not under src/)
takes the lock for reading at the given position. -/
def au_rw_read_lock_nested (rw : au_rwsem) (lsc : Nat) : au_rwsem :=
  { rw with readers := lsc :: rw.readers }

/-- Modelled from the spec: `au_rw_read_unlock` (rwsem.h, not under src/)
releases the read lock taken last. -/
def au_rw_read_unlock (rw : au_rwsem) : Option au_rwsem :=
  match rw.readers with
  | [] => none
  | _ :: rest => some { rw with readers := rest }

/-- Modelled from the spec: `au_rw_write_unlock` (rwsem.h, not under src/)
releases the write lock. -/
def au_rw_write_unlock (rw : au_rwsem) : Option au_rwsem :=
  match rw.writer with
  | none => none
  | some _ => some { rw with writer := none }

/-- Modelled from the spec: `au_rw_dgrade_lock` (rwsem.h, not under src/)
converts a held write lock to a read lock, at the position it was taken. -/
def au_rw_dgrade_lock (rw : au_rwsem) : Option au_rwsem :=
  match rw.writer with
  | none => none
  | some lsc => some { writer := none, readers := lsc :: rw.readers }

/-! ## Inode lock helpers -/

/-- Modelled from the spec: the lock positions `AuLsc_II_*` of the inode lock
(an enumeration of inode.h, not under src/), the same six names as the positions
of the path lock, numbered in the same order from 0. -/
def AuLsc_II_CHILD : Nat := 0

/-- Modelled from the spec: the position Child2 of the inode lock. -/
def AuLsc_II_CHILD2 : Nat := 1

/-- Modelled from the spec: the position Child3 of the inode lock. -/
def AuLsc_II_CHILD3 : Nat := 2

/-- Modelled from the spec: the position Parent of the inode lock. -/
def AuLsc_II_PARENT : Nat := 3

/-- Modelled from the spec: the position Parent2 of the inode lock. -/
def AuLsc_II_PARENT2 : Nat := 4

/-- Modelled from the spec: the position Parent3 of the inode lock. -/
def AuLsc_II_PARENT3 : Nat := 5

/-- Write-lock the inode lock at the position `lsc` and record it. -/
def ii_write_lock_at (i : inode) (lsc : Nat) : inode × List LockEvent :=
  ({ i with ii_rwsem := au_rw_write_lock_nested i.ii_rwsem lsc },
   [LockEvent.ii (rw_op.write_lock lsc)])

/-- Read-lock the inode lock at the position `lsc` and record it. -/
def ii_read_lock_at (i : inode) (lsc : Nat) : inode × List LockEvent :=
  ({ i with ii_rwsem := au_rw_read_lock_nested i.ii_rwsem lsc },
   [LockEvent.ii (rw_op.read_lock lsc)])

/-- Modelled from the spec: `ii_write_lock_child` (generated in inode.h, not
under src/) write-locks the inode lock at the position Child. -/
def ii_write_lock_child (i : inode) : inode × List LockEvent := ii_write_lock_at i AuLsc_II_CHILD

/-- Modelled from the spec: `ii_write_lock_child2` write-locks the inode lock at
the position Child2. -/
def ii_write_lock_child2 (i : inode) : inode × List LockEvent :=
  ii_write_lock_at i AuLsc_II_CHILD2

/-- Modelled from the spec: `ii_write_lock_child3` write-locks the inode lock at
the position Child3. -/
def ii_write_lock_child3 (i : inode) : inode × List LockEvent :=
  ii_write_lock_at i AuLsc_II_CHILD3

/-- Modelled from the spec: `ii_write_lock_parent` write-locks the inode lock at
the position Parent. -/
def ii_write_lock_parent (i : inode) : inode × List LockEvent :=
  ii_write_lock_at i AuLsc_II_PARENT

/-- Modelled from the spec: `ii_write_lock_parent2` write-locks the inode lock at
the position Parent2. -/
def ii_write_lock_parent2 (i : inode) : inode × List LockEvent :=
  ii_write_lock_at i AuLsc_II_PARENT2

/-- Modelled from the spec: `ii_write_lock_parent3` write-locks the inode lock at
the position Parent3. -/
def ii_write_lock_parent3 (i : inode) : inode × List LockEvent :=
  ii_write_lock_at i AuLsc_II_PARENT3

/-- Modelled from the spec: `ii_read_lock_child` (generated in inode.h, not under
src/) read-locks the inode lock at the position Child. -/
def ii_read_lock_child (i : inode) : inode × List LockEvent := ii_read_lock_at i AuLsc_II_CHILD

/-- Modelled from the spec: `ii_read_lock_child2` read-locks the inode lock at
the position Child2. -/
def ii_read_lock_child2 (i : inode) : inode × List LockEvent :=
  ii_read_lock_at i AuLsc_II_CHILD2

/-- Modelled from the spec: `ii_read_lock_child3` read-locks the inode lock at
the position Child3. -/
def ii_read_lock_child3 (i : inode) : inode × List LockEvent :=
  ii_read_lock_at i AuLsc_II_CHILD3

/-- Modelled from the spec: `ii_read_lock_parent` read-locks the inode lock at
the position Parent. -/
def ii_read_lock_parent (i : inode) : inode × List LockEvent :=
  ii_read_lock_at i AuLsc_II_PARENT

/-- Modelled from the spec: `ii_read_lock_parent2` read-locks the inode lock at
the position Parent2. -/
def ii_read_lock_parent2 (i : inode) : inode × List LockEvent :=
  ii_read_lock_at i AuLsc_II_PARENT2

/-- Modelled from the spec: `ii_read_lock_parent3` read-locks the inode lock at
the position Parent3. -/
def ii_read_lock_parent3 (i : inode) : inode × List LockEvent :=
  ii_read_lock_at i AuLsc_II_PARENT3

/-- Modelled from the spec: `ii_write_unlock` (inode.h, not under src/) releases
the write lock of the inode. -/
def ii_write_unlock (i : inode) : Option (inode × List LockEvent) :=
  match au_rw_write_unlock i.ii_rwsem with
  | none => none
  | some rw => some ({ i with ii_rwsem := rw }, [LockEvent.ii rw_op.write_unlock])

/-- Modelled from the spec: `ii_read_unlock` (inode.h, not under src/) releases
a read lock of the inode. -/
def ii_read_unlock (i : inode) : Option (inode × List LockEvent) :=
  match au_rw_read_unlock i.ii_rwsem with
  | none => none
  | some rw => some ({ i with ii_rwsem := rw }, [LockEvent.ii rw_op.read_unlock])

/-- Modelled from the spec: `ii_downgrade_lock` (inode.h, not under src/)
converts the write lock of the inode to a read lock. -/
def ii_downgrade_lock (i : inode) : Option (inode × List LockEvent) :=
  match au_rw_dgrade_lock i.ii_rwsem with
  | none => none
  | some rw => some ({ i with ii_rwsem := rw }, [LockEvent.ii rw_op.dgrade_lock])

/-- Modelled from the spec: the flag `AuLock_IR` (a macro of the headers, not
under src/) requests the read lock of the inode. -/
def AuLock_IR : Nat := 2

/-- Modelled from the spec: the flag `AuLock_IW` (a macro of the headers, not
under src/) requests the write lock of the inode. -/
def AuLock_IW : Nat := 4

/-- Modelled from the spec: `au_ftest_lock(flags, name)` (a macro of the
headers, not under src/) tells whether the flag set holds the flag `name`. -/
def au_ftest_lock (flags name : Nat) : Bool := flags &&& name != 0

/-! ## The lock functions of dinfo.c

`none` stands for the `BUG()` of the default branch, for a NULL `d_fsdata` and
for an undefined release; otherwise the result is the object after the call
and the lock operations made, in program order. -/

/-- The function `do_ii_write_lock`. -/
def do_ii_write_lock (i : inode) (lsc : Nat) : Option (inode × List LockEvent) :=
  if lsc = AuLsc_DI_CHILD then some (ii_write_lock_child i)
  else if lsc = AuLsc_DI_CHILD2 then some (ii_write_lock_child2 i)
  else if lsc = AuLsc_DI_CHILD3 then some (ii_write_lock_child3 i)
  else if lsc = AuLsc_DI_PARENT then some (ii_write_lock_parent i)
  else if lsc = AuLsc_DI_PARENT2 then some (ii_write_lock_parent2 i)
  else if lsc = AuLsc_DI_PARENT3 then some (ii_write_lock_parent3 i)
  else none

/-- The function `do_ii_read_lock`. -/
def do_ii_read_lock (i : inode) (lsc : Nat) : Option (inode × List LockEvent) :=
  if lsc = AuLsc_DI_CHILD then some (ii_read_lock_child i)
  else if lsc = AuLsc_DI_CHILD2 then some (ii_read_lock_child2 i)
  else if lsc = AuLsc_DI_CHILD3 then some (ii_read_lock_child3 i)
  else if lsc = AuLsc_DI_PARENT then some (ii_read_lock_parent i)
  else if lsc = AuLsc_DI_PARENT2 then some (ii_read_lock_parent2 i)
  else if lsc = AuLsc_DI_PARENT3 then some (ii_read_lock_parent3 i)
  else none

/-- The function `di_read_lock`. -/
def di_read_lock (d : dentry) (flags : Nat) (lsc : Nat) : Option (dentry × List LockEvent) :=
  match au_di d with
  | none => none
  | some dinfo =>
    let d1 : dentry := { d with d_fsdata := some { dinfo with
      di_rwsem := au_rw_read_lock_nested dinfo.di_rwsem lsc } }
    let evs := [LockEvent.di (rw_op.read_lock lsc)]
    match d1.d_inode with
    | some i =>
      if au_ftest_lock flags AuLock_IW then
        match do_ii_write_lock i lsc with
        | none => none
        | some (i1, evs1) => some ({ d1 with d_inode := some i1 }, evs ++ evs1)
      else if au_ftest_lock flags AuLock_IR then
        match do_ii_read_lock i lsc with
        | none => none
        | some (i1, evs1) => some ({ d1 with d_inode := some i1 }, evs ++ evs1)
      else some (d1, evs)
    | none => some (d1, evs)

/-- The last statement of the unlock functions: release the path lock with
`unlock` and record `op`, after the lock operations `evs` already made. -/
def di_rwsem_release (d : dentry) (unlock : au_rwsem → Option au_rwsem) (op : rw_op)
    (evs : List LockEvent) : Option (dentry × List LockEvent) :=
  match au_di d with
  | none => none
  | some dinfo =>
    match unlock dinfo.di_rwsem with
    | none => none
    | some rw =>
      some ({ d with d_fsdata := some { dinfo with di_rwsem := rw } }, evs ++ [LockEvent.di op])

/-- The function `di_read_unlock`. -/
def di_read_unlock (d : dentry) (flags : Nat) : Option (dentry × List LockEvent) :=
  match d.d_inode with
  | some i =>
    if au_ftest_lock flags AuLock_IW then
      match ii_write_unlock i with
      | none => none
      | some (i1, evs) =>
        di_rwsem_release { d with d_inode := some i1 } au_rw_read_unlock rw_op.read_unlock evs
    else if au_ftest_lock flags AuLock_IR then
      match ii_read_unlock i with
      | none => none
      | some (i1, evs) =>
        di_rwsem_release { d with d_inode := some i1 } au_rw_read_unlock rw_op.read_unlock evs
    else di_rwsem_release d au_rw_read_unlock rw_op.read_unlock []
  | none => di_rwsem_release d au_rw_read_unlock rw_op.read_unlock []

/-- The function `di_downgrade_lock`. -/
def di_downgrade_lock (d : dentry) (flags : Nat) : Option (dentry × List LockEvent) :=
  match d.d_inode with
  | some i =>
    if au_ftest_lock flags AuLock_IR then
      match ii_downgrade_lock i with
      | none => none
      | some (i1, evs) =>
        di_rwsem_release { d with d_inode := some i1 } au_rw_dgrade_lock rw_op.dgrade_lock evs
    else di_rwsem_release d au_rw_dgrade_lock rw_op.dgrade_lock []
  | none => di_rwsem_release d au_rw_dgrade_lock rw_op.dgrade_lock []

/-- The function `di_write_lock`. -/
def di_write_lock (d : dentry) (lsc : Nat) : Option (dentry × List LockEvent) :=
  match au_di d with
  | none => none
  | some dinfo =>
    let d1 : dentry := { d with d_fsdata := some { dinfo with
      di_rwsem := au_rw_write_lock_nested dinfo.di_rwsem lsc } }
    let evs := [LockEvent.di (rw_op.write_lock lsc)]
    match d1.d_inode with
    | some i =>
      match do_ii_write_lock i lsc with
      | none => none
      | some (i1, evs1) => some ({ d1 with d_inode := some i1 }, evs ++ evs1)
    | none => some (d1, evs)

/-- The function `di_write_unlock`. -/
def di_write_unlock (d : dentry) : Option (dentry × List LockEvent) :=
  match d.d_inode with
  | some i =>
    match ii_write_unlock i with
    | none => none
    | some (i1, evs) =>
      di_rwsem_release { d with d_inode := some i1 } au_rw_write_unlock rw_op.write_unlock evs
  | none => di_rwsem_release d au_rw_write_unlock rw_op.write_unlock []

/-- The six positions of the path lock that the lock functions accept. -/
def di_lock_positions : List Nat :=
  [AuLsc_DI_CHILD, AuLsc_DI_CHILD2, AuLsc_DI_CHILD3,
   AuLsc_DI_PARENT, AuLsc_DI_PARENT2, AuLsc_DI_PARENT3]

/-- The six positions of the inode lock, in the same order of names. -/
def ii_lock_positions : List Nat :=
  [AuLsc_II_CHILD, AuLsc_II_CHILD2, AuLsc_II_CHILD3,
   AuLsc_II_PARENT, AuLsc_II_PARENT2, AuLsc_II_PARENT3]

/-! ## Concrete inputs -/

/-- A super block with three branches, of identities 5, 7 and 9. -/
def ex_sb : super_block :=
  { si_bend := 2, si_branch := [⟨5⟩, ⟨7⟩, ⟨9⟩], si_generation := 4 }

/-- An object as the dinfo cache hands it out: only the lock is initialised. -/
def ex_cache : au_dinfo :=
  { di_generation := 0, di_rwsem := ⟨none, []⟩, di_bstart := 0, di_bend := 0, di_bwh := 0,
    di_hdentry := [] }

/-- The info `au_di_alloc` builds from `ex_cache` for `ex_sb`. -/
def ex_fresh : au_dinfo :=
  { di_generation := 0, di_rwsem := ⟨some 0, []⟩, di_bstart := -1, di_bend := -1, di_bwh := -1,
    di_hdentry := [⟨none, -1⟩, ⟨none, -1⟩, ⟨none, -1⟩] }

/-- A dentry of `ex_sb` carrying the fresh info. -/
def ex_dentry : dentry := { d_sb := ex_sb, d_inode := none, d_fsdata := some ex_fresh }

/-- The dentry `ex_dentry` after `au_set_h_dptr` stored the reference 100 at index 1. -/
def ex_populated : dentry :=
  { ex_dentry with d_fsdata := some { ex_fresh with
      di_hdentry := [⟨none, -1⟩, ⟨some 100, 7⟩, ⟨none, -1⟩] } }

/-- An info with three slots whose valid range is `[1, 2]`. -/
def ex_ranged : au_dinfo :=
  { di_generation := 4, di_rwsem := ⟨some 0, []⟩, di_bstart := 1, di_bend := 2, di_bwh := -1,
    di_hdentry := [⟨none, -1⟩, ⟨some 100, 7⟩, ⟨some 200, 9⟩] }

/-- An inode whose lock is free and whose generation is 4, that of `ex_sb`. -/
def ex_inode : inode := { ii_rwsem := ⟨none, []⟩, ii_generation := 4 }

/-- A dentry of `ex_sb` whose inode still has the older generation 3. -/
def ex_stale_inode_dentry : dentry :=
  { d_sb := ex_sb, d_inode := some { ii_rwsem := ⟨none, []⟩, ii_generation := 3 },
    d_fsdata := some ex_ranged }

/-- A dentry of `ex_sb` with the inode `ex_inode` and an info whose lock is free. -/
def ex_unlocked_dentry : dentry :=
  { d_sb := ex_sb, d_inode := some ex_inode,
    d_fsdata := some { ex_ranged with di_rwsem := ⟨none, []⟩ } }

/-- The dentry `ex_unlocked_dentry` after `di_write_lock` at the position Child:
the path lock and the inode lock are both write-held. -/
def ex_write_locked_dentry : dentry :=
  { d_sb := ex_sb,
    d_inode := some { ii_rwsem := ⟨some AuLsc_II_CHILD, []⟩, ii_generation := 4 },
    d_fsdata := some { ex_ranged with di_rwsem := ⟨some AuLsc_DI_CHILD, []⟩ } }

/-- An info with `di_bstart = -1` and `di_bend = 1` whose slot 0 holds the
reference 100. -/
def ex_mixed : au_dinfo :=
  { di_generation := 4, di_rwsem := ⟨some 0, []⟩, di_bstart := -1, di_bend := 1, di_bwh := -1,
    di_hdentry := [⟨some 100, 5⟩, ⟨none, -1⟩, ⟨none, -1⟩] }

/-- An info with 32768 slots whose valid range is the single index 32767, the
largest value of `aufs_bindex_t`; that slot holds the reference 100. -/
def ex_full : au_dinfo :=
  { di_generation := 4, di_rwsem := ⟨some 0, []⟩, di_bstart := 32767, di_bend := 32767,
    di_bwh := -1,
    di_hdentry := List.replicate 32767 ⟨none, -1⟩ ++ [⟨some 100, 5⟩] }

/-! # Properties -/

/-! ## Slot access -/

theorem hdentry_at_natCast (hdp : List au_hdentry) (k : Nat) :
    hdentry_at hdp (k : Int) = hdp[k]? := by
  simp [hdentry_at]

theorem hdentry_at_eq_some {hdp : List au_hdentry} {i : Int} {hd : au_hdentry}
    (h : hdentry_at hdp i = some hd) : 0 ≤ i ∧ i.toNat < hdp.length ∧ hdp[i.toNat]? = some hd := by
  unfold hdentry_at at h
  split at h
  · simp at h
  · rename_i hneg
    refine ⟨by omega, ?_, h⟩
    have := List.getElem?_eq_some.mp h
    exact this.1

theorem au_di_alloc_loop_replicate (fuel : Nat) : ∀ k : Nat,
    au_di_alloc_loop ((k + fuel : Nat) : Int) fuel (k : Int)
      (List.replicate k ({ hd_dentry := none, hd_id := -1 } : au_hdentry)
        ++ List.replicate fuel { hd_dentry := none, hd_id := 0 })
      = some (List.replicate (k + fuel) { hd_dentry := none, hd_id := -1 }) := by
  induction fuel with
  | zero => intro k; simp [au_di_alloc_loop]
  | succ n ih =>
    intro k
    have hlt : (k : Int) < ((k + (n + 1) : Nat) : Int) := by omega
    have hat : hdentry_at (List.replicate k ({ hd_dentry := none, hd_id := -1 } : au_hdentry)
        ++ List.replicate (n + 1) { hd_dentry := none, hd_id := 0 }) (k : Int)
        = some { hd_dentry := none, hd_id := 0 } := by
      rw [hdentry_at_natCast]
      rw [List.getElem?_append_right (by simp)]
      simp [List.replicate_succ]
    simp only [au_di_alloc_loop, hlt, if_true, hat]
    have hset : (List.replicate k ({ hd_dentry := none, hd_id := -1 } : au_hdentry)
        ++ List.replicate (n + 1) ({ hd_dentry := none, hd_id := 0 } : au_hdentry)).set (k : Int).toNat
          { hd_dentry := none, hd_id := -1 }
        = List.replicate (k + 1) ({ hd_dentry := none, hd_id := -1 } : au_hdentry)
          ++ List.replicate n ({ hd_dentry := none, hd_id := 0 } : au_hdentry) := by
      rw [Int.toNat_ofNat, List.set_append_right _ _ (by simp)]
      rw [List.replicate_succ' k]
      simp [List.replicate_succ]
    rw [hset]
    have := ih (k + 1)
    have e : k + 1 + n = k + (n + 1) := by omega
    rw [e] at this
    exact_mod_cast this

theorem au_di_alloc_ok (raw : au_dinfo) (sb : super_block) (lsc : Nat) :
    au_di_alloc (some raw) true sb lsc
      = some (some { raw with
          di_hdentry := List.replicate (max (au_sbend sb + 1) 1).toNat { hd_dentry := none, hd_id := -1 }
          di_rwsem := au_rw_write_lock_nested raw.di_rwsem lsc
          di_bstart := -1
          di_bend := -1
          di_bwh := -1 }, []) := by
  have key : ∀ nbr : Int, 0 < nbr →
      au_di_alloc_loop nbr nbr.toNat 0 (List.replicate nbr.toNat { hd_dentry := none, hd_id := 0 })
        = some (List.replicate nbr.toNat { hd_dentry := none, hd_id := -1 }) := by
    intro nbr hpos
    have := au_di_alloc_loop_replicate nbr.toNat 0
    simp only [List.replicate_zero, List.nil_append, Nat.zero_add, Nat.cast_zero] at this
    rw [Int.toNat_of_nonneg (by omega)] at this
    exact this
  unfold au_di_alloc
  simp only [kcalloc, if_true]
  by_cases h : au_sbend sb + 1 ≤ 0
  · have hm : max (au_sbend sb + 1) 1 = 1 := by omega
    simp only [h, if_true, hm]
    rw [key 1 (by decide)]
  · have hm : max (au_sbend sb + 1) 1 = au_sbend sb + 1 := by omega
    simp only [h, if_false, hm]
    rw [key _ (by omega)]


theorem au_h_dptr_eq {d : dentry} {dinfo : au_dinfo} (hdi : au_di d = some dinfo) (bindex : Int) :
    au_h_dptr d bindex
      = if dinfo.di_bstart < 0 ∨ bindex < dinfo.di_bstart then some none
        else (hdentry_at dinfo.di_hdentry bindex).map (fun hd => hd.hd_dentry) := by
  unfold au_h_dptr au_dbstart
  rw [hdi]
  simp only [Option.map_some', Int.zero_add]
  split
  · rfl
  · cases hdentry_at dinfo.di_hdentry bindex <;> rfl

theorem au_set_h_dptr_eq {d : dentry} {dinfo : au_dinfo} {bindex : Int} {hd : au_hdentry}
    (hdi : au_di d = some dinfo) (hslot : hdentry_at dinfo.di_hdentry bindex = some hd)
    (h_dentry : Option Nat) :
    au_set_h_dptr d bindex h_dentry
      = match h_dentry with
        | some r =>
          (au_sbr d.d_sb bindex).map (fun br =>
            ({ d with d_fsdata := some { dinfo with
                di_hdentry := dinfo.di_hdentry.set bindex.toNat
                  { hd_dentry := some r, hd_id := br.br_id } } }, [Event.hdput bindex hd]))
        | none =>
          some ({ d with d_fsdata := some { dinfo with
                di_hdentry := dinfo.di_hdentry.set bindex.toNat
                  { hd_dentry := none, hd_id := hd.hd_id } } }, [Event.hdput bindex hd]) := by
  unfold au_set_h_dptr
  rw [hdi]
  simp only [hslot, au_hdput]
  cases h_dentry with
  | none => rfl
  | some r => cases au_sbr d.d_sb bindex <;> rfl

theorem hdentry_at_set_self {hdp : List au_hdentry} {i : Int} {hd : au_hdentry}
    (h : hdentry_at hdp i = some hd) (v : au_hdentry) :
    hdentry_at (hdp.set i.toNat v) i = some v := by
  obtain ⟨h0, hlt, _⟩ := hdentry_at_eq_some h
  unfold hdentry_at
  rw [if_neg (by omega)]
  simp [List.getElem?_set, hlt]

theorem hdentry_at_set_other (hdp : List au_hdentry) {i j : Int} (hi : 0 ≤ i) (hij : i ≠ j)
    (v : au_hdentry) :
    hdentry_at (hdp.set i.toNat v) j = hdentry_at hdp j := by
  unfold hdentry_at
  split
  · rfl
  · rw [List.getElem?_set_ne]
    omega

/-! ## The scan of au_find_dbindex -/

theorem aufs_bindex_incr_eq {bindex : Int} (hlo : -32768 ≤ bindex)
    (hhi : bindex < aufs_bindex_max) : aufs_bindex_incr bindex = bindex + 1 := by
  unfold aufs_bindex_max at hhi
  unfold aufs_bindex_incr
  omega

theorem au_find_dbindex_loop_step (d : dentry) (h_dentry : Option Nat) (bend : Int) (fuel : Nat)
    (bindex : Int) :
    au_find_dbindex_loop d h_dentry bend (fuel + 1) bindex
      = if bindex ≤ bend then
          match au_h_dptr d bindex with
          | none => none
          | some p => if p = h_dentry then some bindex
                      else au_find_dbindex_loop d h_dentry bend fuel (aufs_bindex_incr bindex)
        else some (-1) := rfl

theorem au_find_dbindex_eq_loop {d : dentry} {dinfo : au_dinfo} (hdi : au_di d = some dinfo)
    (target : Option Nat) :
    au_find_dbindex d target
      = au_find_dbindex_loop d target dinfo.di_bend 65536 dinfo.di_bstart := by
  simp only [au_find_dbindex, au_dbend, au_dbstart, hdi, Option.map_some']

theorem au_find_dbindex_loop_unset {d : dentry} {dinfo : au_dinfo} (hdi : au_di d = some dinfo)
    (target : Option Nat) (hneg : dinfo.di_bstart < 0) (hmax : dinfo.di_bend < aufs_bindex_max)
    (fuel : Nat) :
    ∀ bindex : Int, -32768 ≤ bindex → (dinfo.di_bend + 1 - bindex).toNat ≤ fuel →
      au_find_dbindex_loop d target dinfo.di_bend fuel bindex
        = some (if target = none ∧ bindex ≤ dinfo.di_bend then bindex else -1) := by
  have hptr : ∀ bindex : Int, au_h_dptr d bindex = some none := by
    intro bindex
    rw [au_h_dptr_eq hdi, if_pos (Or.inl hneg)]
  induction fuel with
  | zero =>
    intro bindex _ hfuel
    have hgt : ¬ bindex ≤ dinfo.di_bend := by omega
    simp only [au_find_dbindex_loop, if_neg hgt]
    rw [if_neg (fun h => hgt h.2)]
  | succ n ih =>
    intro bindex hlo hfuel
    rw [au_find_dbindex_loop_step]
    by_cases hle : bindex ≤ dinfo.di_bend
    · rw [if_pos hle, hptr]
      simp only
      cases target with
      | none => simp [hle]
      | some t =>
        have hne : ¬ (none : Option Nat) = some t := by simp
        rw [if_neg hne, aufs_bindex_incr_eq hlo (by omega), ih (bindex + 1) (by omega) (by omega)]
        simp
    · rw [if_neg hle, if_neg (fun h => hle h.2)]

theorem au_find_dbindex_unset {d : dentry} {dinfo : au_dinfo} (hdi : au_di d = some dinfo)
    (target : Option Nat) (hs : dinfo.di_bstart = -1) (hmax : dinfo.di_bend < aufs_bindex_max) :
    au_find_dbindex d target = some (-1) := by
  have hm := hmax
  unfold aufs_bindex_max at hm
  rw [au_find_dbindex_eq_loop hdi,
    au_find_dbindex_loop_unset hdi target (by omega) hmax 65536 dinfo.di_bstart (by omega)
      (by omega), hs]
  split <;> rfl

theorem au_find_dbindex_hit_at_start {d : dentry} {dinfo : au_dinfo} (hdi : au_di d = some dinfo)
    (target : Option Nat) (hd : au_hdentry) (r : Int) (hr : dinfo.di_bstart = r) (hs : 0 ≤ r)
    (hse : r ≤ dinfo.di_bend)
    (hslot : hdentry_at dinfo.di_hdentry r = some hd)
    (hhit : hd.hd_dentry = target) :
    au_find_dbindex d target = some r := by
  rw [au_find_dbindex_eq_loop hdi, show (65536 : Nat) = 65535 + 1 from rfl,
    au_find_dbindex_loop_step, hr, if_pos hse, au_h_dptr_eq hdi, hr, if_neg (by omega), hslot]
  simp [hhit]

/-! ## Basic populate and query -/

/-- C1 (as amended). For an info just allocated for three branches,
`au_set_h_dptr(dentry, 1, refA)` with `refA` non-null makes one `au_hdput` call
on the still empty slot 1, stores `refA` there with the identity of the branch
at index 1, and leaves `di_bstart = di_bend = -1`; with these bounds
`au_h_dptr(dentry, 1)` is NULL and `au_find_dbindex(dentry, refA)` is -1. Once
the bounds are set to 1, `au_h_dptr(dentry, 1)` is `refA` and
`au_find_dbindex(dentry, refA)` is 1. -/
theorem populate_then_query (sb : super_block) (ino : Option inode) (raw : au_dinfo) (lsc : Nat)
    (refA : Nat) (br : au_branch) (hsb : au_sbend sb = 2) (hbr : au_sbr sb 1 = some br) :
    ∃ dinfo d1 di1,
      au_di_alloc (some raw) true sb lsc = some (some dinfo, [])
      ∧ dinfo.di_bstart = -1 ∧ dinfo.di_bend = -1
      ∧ au_set_h_dptr { d_sb := sb, d_inode := ino, d_fsdata := some dinfo } 1 (some refA)
          = some (d1, [Event.hdput 1 { hd_dentry := none, hd_id := -1 }])
      ∧ au_di d1 = some di1
      ∧ di1.di_bstart = -1 ∧ di1.di_bend = -1
      ∧ hdentry_at di1.di_hdentry 1 = some { hd_dentry := some refA, hd_id := br.br_id }
      ∧ au_h_dptr d1 1 = some none
      ∧ au_find_dbindex d1 (some refA) = some (-1)
      ∧ au_h_dptr { d1 with d_fsdata := some { di1 with di_bstart := 1, di_bend := 1 } } 1
          = some (some refA)
      ∧ au_find_dbindex { d1 with d_fsdata := some { di1 with di_bstart := 1, di_bend := 1 } }
          (some refA) = some 1 := by
  have hrep : List.replicate (max (au_sbend sb + 1) 1).toNat
      ({ hd_dentry := none, hd_id := -1 } : au_hdentry)
      = [⟨none, -1⟩, ⟨none, -1⟩, ⟨none, -1⟩] := by
    rw [hsb]; rfl
  refine ⟨{ raw with
              di_hdentry := [⟨none, -1⟩, ⟨none, -1⟩, ⟨none, -1⟩]
              di_rwsem := au_rw_write_lock_nested raw.di_rwsem lsc
              di_bstart := -1
              di_bend := -1
              di_bwh := -1 },
          { d_sb := sb, d_inode := ino, d_fsdata := some { raw with
              di_hdentry := [⟨none, -1⟩, ⟨some refA, br.br_id⟩, ⟨none, -1⟩]
              di_rwsem := au_rw_write_lock_nested raw.di_rwsem lsc
              di_bstart := -1
              di_bend := -1
              di_bwh := -1 } },
          { raw with
              di_hdentry := [⟨none, -1⟩, ⟨some refA, br.br_id⟩, ⟨none, -1⟩]
              di_rwsem := au_rw_write_lock_nested raw.di_rwsem lsc
              di_bstart := -1
              di_bend := -1
              di_bwh := -1 }, ?_, rfl, rfl, ?_, rfl, rfl, rfl, rfl, ?_, ?_, ?_, ?_⟩
  · rw [au_di_alloc_ok, hrep]
  · simp [au_set_h_dptr, au_di, hdentry_at, au_hdput, hbr]
  · simp [au_h_dptr, au_dbstart, au_di]
  · exact au_find_dbindex_unset (by rfl) _ (by rfl) (by simp [aufs_bindex_max])
  · simp [au_h_dptr, au_dbstart, au_di, hdentry_at]
  · exact au_find_dbindex_hit_at_start (by rfl) _ ⟨some refA, br.br_id⟩ 1 (by rfl) (by decide)
      (by simp) (by rfl) (by rfl)

/-- Witness for C1: three branches of identities 5, 7, 9. -/
theorem populate_then_query_witness :
    ∃ dinfo d1 di1,
      au_di_alloc (some ex_cache) true ex_sb 0 = some (some dinfo, [])
      ∧ dinfo.di_bstart = -1 ∧ dinfo.di_bend = -1
      ∧ au_set_h_dptr { d_sb := ex_sb, d_inode := none, d_fsdata := some dinfo } 1 (some 100)
          = some (d1, [Event.hdput 1 { hd_dentry := none, hd_id := -1 }])
      ∧ au_di d1 = some di1
      ∧ di1.di_bstart = -1 ∧ di1.di_bend = -1
      ∧ hdentry_at di1.di_hdentry 1 = some { hd_dentry := some 100, hd_id := 7 }
      ∧ au_h_dptr d1 1 = some none
      ∧ au_find_dbindex d1 (some 100) = some (-1)
      ∧ au_h_dptr { d1 with d_fsdata := some { di1 with di_bstart := 1, di_bend := 1 } } 1
          = some (some 100)
      ∧ au_find_dbindex { d1 with d_fsdata := some { di1 with di_bstart := 1, di_bend := 1 } }
          (some 100) = some 1 :=
  populate_then_query ex_sb none ex_cache 0 100 ⟨7⟩ (by decide) (by decide)

/-- C1 (counterexample). On the three-branch super block `ex_sb`, after
`au_di_alloc` and `au_set_h_dptr(dentry, 1, 100)` the bounds are still -1,
`au_h_dptr(dentry, 1)` is NULL and `au_find_dbindex(dentry, 100)` is -1, so none
of the four results of the claim is obtained. -/
theorem populate_then_query_counterexample :
    au_di_alloc (some ex_cache) true ex_sb 0 = some (some ex_fresh, [])
    ∧ au_set_h_dptr ex_dentry 1 (some 100) = some (ex_populated, [Event.hdput 1 ⟨none, -1⟩])
    ∧ au_dbstart ex_populated = some (-1)
    ∧ au_dbend ex_populated = some (-1)
    ∧ au_h_dptr ex_populated 1 = some none
    ∧ au_find_dbindex ex_populated (some 100) = some (-1)
    ∧ ¬ (au_dbstart ex_populated = some 1 ∧ au_dbend ex_populated = some 1
          ∧ au_h_dptr ex_populated 1 = some (some 100)
          ∧ au_find_dbindex ex_populated (some 100) = some 1) := by
  decide

/-! ## au_set_h_dptr and au_h_dptr -/

/-- C2. `au_set_h_dptr(dentry, bindex, h_dentry)` makes exactly one `au_hdput`
call, on slot `bindex` while it still holds its previous content, and then
stores: afterwards the slot holds `h_dentry`, and when `h_dentry` is non-null its
`hd_id` is the `br_id` of the branch at `bindex`. A second call on the same slot
makes exactly one further `au_hdput` call, on the slot while it holds the
reference stored by the first call, before the second reference is stored. -/
theorem au_set_h_dptr_release_then_store (d : dentry) (dinfo : au_dinfo) (bindex : Int)
    (hd : au_hdentry) (h_dentry : Option Nat)
    (hdi : au_di d = some dinfo)
    (hslot : hdentry_at dinfo.di_hdentry bindex = some hd)
    (hbr : h_dentry ≠ none → ∃ br, au_sbr d.d_sb bindex = some br) :
    ∃ d1 di1 hd1,
      au_set_h_dptr d bindex h_dentry = some (d1, [Event.hdput bindex hd])
      ∧ au_di d1 = some di1
      ∧ hdentry_at di1.di_hdentry bindex = some hd1
      ∧ hd1.hd_dentry = h_dentry
      ∧ (∀ br, h_dentry ≠ none → au_sbr d.d_sb bindex = some br → hd1.hd_id = br.br_id)
      ∧ (∀ h_dentry2 : Option Nat, (h_dentry2 ≠ none → ∃ br, au_sbr d.d_sb bindex = some br) →
          ∃ d2 di2 hd2,
            run_set_h_dptr d [(bindex, h_dentry), (bindex, h_dentry2)]
              = some (d2, [Event.hdput bindex hd, Event.hdput bindex hd1])
            ∧ au_di d2 = some di2
            ∧ hdentry_at di2.di_hdentry bindex = some hd2
            ∧ hd2.hd_dentry = h_dentry2) := by
  have hstep : ∀ (d : dentry) (dinfo : au_dinfo) (hd : au_hdentry) (h : Option Nat),
      au_di d = some dinfo → hdentry_at dinfo.di_hdentry bindex = some hd →
      (h ≠ none → ∃ br, au_sbr d.d_sb bindex = some br) →
      ∃ d1 di1 hd1,
        au_set_h_dptr d bindex h = some (d1, [Event.hdput bindex hd])
        ∧ au_di d1 = some di1
        ∧ d1.d_sb = d.d_sb
        ∧ hdentry_at di1.di_hdentry bindex = some hd1
        ∧ hd1.hd_dentry = h
        ∧ (∀ br, h ≠ none → au_sbr d.d_sb bindex = some br → hd1.hd_id = br.br_id) := by
    intro d dinfo hd h hdi hslot hbr
    rw [au_set_h_dptr_eq hdi hslot]
    cases h with
    | none =>
      exact ⟨_, _, _, rfl, rfl, rfl, hdentry_at_set_self hslot _, rfl, fun _ hne => absurd rfl hne⟩
    | some r =>
      obtain ⟨br, hb⟩ := hbr (by simp)
      simp only [hb, Option.map_some']
      refine ⟨_, _, _, rfl, rfl, rfl, hdentry_at_set_self hslot _, rfl, ?_⟩
      intro br1 _ hb1
      cases hb1
      rfl
  obtain ⟨d1, di1, hd1, h1, hdi1, hsb1, hs1, hv1, hid1⟩ := hstep d dinfo hd h_dentry hdi hslot hbr
  refine ⟨d1, di1, hd1, h1, hdi1, hs1, hv1, hid1, ?_⟩
  intro h2 hbr2
  obtain ⟨d2, di2, hd2, h2e, hdi2, _, hs2, hv2, _⟩ :=
    hstep d1 di1 hd1 h2 hdi1 hs1 (by rw [hsb1]; exact hbr2)
  refine ⟨d2, di2, hd2, ?_, hdi2, hs2, hv2⟩
  simp [run_set_h_dptr, h1, h2e]

/-- Witness for C2: storing 100 in the empty slot 1 of a fresh three-slot
info. -/
theorem au_set_h_dptr_release_then_store_witness :
    ∃ d1 di1 hd1,
      au_set_h_dptr ex_dentry 1 (some 100) = some (d1, [Event.hdput 1 ⟨none, -1⟩])
      ∧ au_di d1 = some di1
      ∧ hdentry_at di1.di_hdentry 1 = some hd1
      ∧ hd1.hd_dentry = some 100
      ∧ (∀ br, some 100 ≠ none → au_sbr ex_dentry.d_sb 1 = some br → hd1.hd_id = br.br_id)
      ∧ (∀ h_dentry2 : Option Nat,
          (h_dentry2 ≠ none → ∃ br, au_sbr ex_dentry.d_sb 1 = some br) →
          ∃ d2 di2 hd2,
            run_set_h_dptr ex_dentry [(1, some 100), (1, h_dentry2)]
              = some (d2, [Event.hdput 1 ⟨none, -1⟩, Event.hdput 1 hd1])
            ∧ au_di d2 = some di2
            ∧ hdentry_at di2.di_hdentry 1 = some hd2
            ∧ hd2.hd_dentry = h_dentry2) :=
  au_set_h_dptr_release_then_store ex_dentry ex_fresh 1 ⟨none, -1⟩ (some 100) (by decide)
    (by decide) (fun _ => ⟨⟨7⟩, by decide⟩)

/-- C3. `au_h_dptr(dentry, bindex)` returns NULL when `di_bstart < 0` or
`bindex < di_bstart`, and otherwise the `hd_dentry` stored in slot `bindex`. -/
theorem au_h_dptr_result (d : dentry) (dinfo : au_dinfo) (bindex : Int)
    (hdi : au_di d = some dinfo) :
    ((dinfo.di_bstart < 0 ∨ bindex < dinfo.di_bstart) → au_h_dptr d bindex = some none)
    ∧ (¬ (dinfo.di_bstart < 0 ∨ bindex < dinfo.di_bstart) →
        (∀ hd, hdentry_at dinfo.di_hdentry bindex = some hd →
          au_h_dptr d bindex = some hd.hd_dentry)
        ∧ au_h_dptr d bindex
            = (hdentry_at dinfo.di_hdentry bindex).map (fun hd => hd.hd_dentry)) := by
  rw [au_h_dptr_eq hdi]
  refine ⟨fun h => if_pos h, fun h => ?_⟩
  rw [if_neg h]
  refine ⟨fun hd hs => ?_, rfl⟩
  rw [hs]
  rfl

/-- Witness for C3: an info whose valid range is `[1, 2]`. -/
theorem au_h_dptr_result_witness :
    au_h_dptr { d_sb := ex_sb, d_inode := none, d_fsdata := some ex_ranged } 0 = some none
    ∧ au_h_dptr { d_sb := ex_sb, d_inode := none, d_fsdata := some ex_ranged } 2
        = some (some 200) :=
  ⟨(au_h_dptr_result { d_sb := ex_sb, d_inode := none, d_fsdata := some ex_ranged }
      ex_ranged 0 rfl).1 (Or.inr (by decide)),
   ((au_h_dptr_result { d_sb := ex_sb, d_inode := none, d_fsdata := some ex_ranged }
      ex_ranged 2 rfl).2 (by decide)).1 ⟨some 200, 9⟩ (by decide)⟩

/-! ## au_find_dbindex -/

theorem au_find_dbindex_loop_scan {d : dentry} {dinfo : au_dinfo} (hdi : au_di d = some dinfo)
    (target : Option Nat) (hstart : 0 ≤ dinfo.di_bstart)
    (hmax : dinfo.di_bend < aufs_bindex_max)
    (hin : ∀ i : Int, dinfo.di_bstart ≤ i → i ≤ dinfo.di_bend →
      i < (dinfo.di_hdentry.length : Int)) (fuel : Nat) :
    ∀ bindex : Int, dinfo.di_bstart ≤ bindex → (dinfo.di_bend + 1 - bindex).toNat ≤ fuel →
      ∃ r, au_find_dbindex_loop d target dinfo.di_bend fuel bindex = some r
        ∧ ((r = -1 ∧ ∀ i : Int, bindex ≤ i → i ≤ dinfo.di_bend →
              (hdentry_at dinfo.di_hdentry i).map (fun hd => hd.hd_dentry) ≠ some target)
          ∨ (bindex ≤ r ∧ r ≤ dinfo.di_bend
              ∧ (hdentry_at dinfo.di_hdentry r).map (fun hd => hd.hd_dentry) = some target
              ∧ ∀ j : Int, bindex ≤ j → j < r →
                  (hdentry_at dinfo.di_hdentry j).map (fun hd => hd.hd_dentry) ≠ some target)) := by
  induction fuel with
  | zero =>
    intro bindex _ hfuel
    have hgt : ¬ bindex ≤ dinfo.di_bend := by omega
    refine ⟨-1, by simp [au_find_dbindex_loop, hgt], Or.inl ⟨rfl, ?_⟩⟩
    intro i h1 h2
    omega
  | succ n ih =>
    intro bindex hge hfuel
    by_cases hle : bindex ≤ dinfo.di_bend
    · have hlen := hin bindex hge hle
      have hnot : ¬ (dinfo.di_bstart < 0 ∨ bindex < dinfo.di_bstart) := by omega
      have hb : bindex.toNat < dinfo.di_hdentry.length := by omega
      have hget : hdentry_at dinfo.di_hdentry bindex = some dinfo.di_hdentry[bindex.toNat] := by
        unfold hdentry_at
        rw [if_neg (by omega)]
        exact List.getElem?_eq_getElem _
      have hptr : au_h_dptr d bindex = some dinfo.di_hdentry[bindex.toNat].hd_dentry := by
        rw [au_h_dptr_eq hdi, if_neg hnot, hget]
        rfl
      have hincr : aufs_bindex_incr bindex = bindex + 1 :=
        aufs_bindex_incr_eq (by omega) (by omega)
      by_cases hmatch : dinfo.di_hdentry[bindex.toNat].hd_dentry = target
      · refine ⟨bindex, by simp [au_find_dbindex_loop, hle, hptr, hmatch],
          Or.inr ⟨le_refl _, hle, ?_, ?_⟩⟩
        · rw [hget]; simp [hmatch]
        · intro j h1 h2; omega
      · obtain ⟨r, hr, hcases⟩ := ih (bindex + 1) (by omega) (by omega)
        refine ⟨r, by simp [au_find_dbindex_loop, hle, hptr, hmatch, hincr, hr], ?_⟩
        have hhere : (hdentry_at dinfo.di_hdentry bindex).map (fun hd => hd.hd_dentry)
            ≠ some target := by
          rw [hget]; simpa using hmatch
        rcases hcases with ⟨h1, h2⟩ | ⟨h1, h2, h3, h4⟩
        · refine Or.inl ⟨h1, fun i hi1 hi2 => ?_⟩
          by_cases hib : i = bindex
          · rw [hib]; exact hhere
          · exact h2 i (by omega) hi2
        · refine Or.inr ⟨by omega, h2, h3, fun j hj1 hj2 => ?_⟩
          by_cases hjb : j = bindex
          · rw [hjb]; exact hhere
          · exact h4 j (by omega) hj2
    · refine ⟨-1, by simp [au_find_dbindex_loop, hle], Or.inl ⟨rfl, ?_⟩⟩
      intro i h1 h2
      omega

/-- C4 (as amended). Let `di_bend` be below the largest value of `aufs_bindex_t`.
When `di_bstart >= 0` and the range `[di_bstart, di_bend]` lies inside the slot
array, `au_find_dbindex(dentry, target)` returns -1 exactly when no index of the
range holds a reference identical to `target`, and otherwise the smallest index
of the range whose slot reference is identical to `target`. When `di_bstart = -1`
it returns -1 for every target, NULL included, whatever `di_bend` and the slots
are; this covers the empty range `di_bstart = di_bend = -1`. -/
theorem au_find_dbindex_first_match (d : dentry) (dinfo : au_dinfo) (target : Option Nat)
    (hdi : au_di d = some dinfo)
    (hlo : 0 ≤ dinfo.di_bstart ∨ dinfo.di_bstart = -1)
    (hmax : dinfo.di_bend < aufs_bindex_max)
    (hin : ∀ i : Int, 0 ≤ dinfo.di_bstart → dinfo.di_bstart ≤ i → i ≤ dinfo.di_bend →
      i < (dinfo.di_hdentry.length : Int)) :
    ∃ r, au_find_dbindex d target = some r
      ∧ (0 ≤ dinfo.di_bstart →
          (r = -1 ↔ ∀ i : Int, dinfo.di_bstart ≤ i → i ≤ dinfo.di_bend →
            (hdentry_at dinfo.di_hdentry i).map (fun hd => hd.hd_dentry) ≠ some target)
          ∧ (r ≠ -1 → dinfo.di_bstart ≤ r ∧ r ≤ dinfo.di_bend
            ∧ (hdentry_at dinfo.di_hdentry r).map (fun hd => hd.hd_dentry) = some target
            ∧ ∀ j : Int, dinfo.di_bstart ≤ j → j < r →
                (hdentry_at dinfo.di_hdentry j).map (fun hd => hd.hd_dentry) ≠ some target))
      ∧ (dinfo.di_bstart = -1 → r = -1) := by
  have hm := hmax
  unfold aufs_bindex_max at hm
  rcases hlo with hpos | hs
  · obtain ⟨r, hr, hcases⟩ := au_find_dbindex_loop_scan hdi target hpos hmax (hin · hpos)
      65536 dinfo.di_bstart (le_refl _) (by omega)
    refine ⟨r, by rw [au_find_dbindex_eq_loop hdi, hr], fun _ => ⟨?_, ?_⟩, ?_⟩
    · rcases hcases with ⟨h1, h2⟩ | ⟨h1, h2, h3, _⟩
      · exact ⟨fun _ => h2, fun _ => h1⟩
      · constructor
        · intro hneg; omega
        · intro hall; exact absurd h3 (hall r h1 h2)
    · intro hne
      rcases hcases with ⟨h1, _⟩ | h
      · exact absurd h1 hne
      · exact h
    · intro hneg; omega
  · refine ⟨-1, au_find_dbindex_unset hdi target hs hmax, fun h => ?_, fun _ => rfl⟩
    omega

/-- Witness for C4: the reference 200 sits in slot 2 of an info whose valid
range is `[1, 2]`. -/
theorem au_find_dbindex_first_match_witness :
    ∃ r, au_find_dbindex { d_sb := ex_sb, d_inode := none, d_fsdata := some ex_ranged } (some 200)
          = some r
      ∧ (0 ≤ ex_ranged.di_bstart →
          (r = -1 ↔ ∀ i : Int, ex_ranged.di_bstart ≤ i → i ≤ ex_ranged.di_bend →
            (hdentry_at ex_ranged.di_hdentry i).map (fun hd => hd.hd_dentry) ≠ some (some 200))
          ∧ (r ≠ -1 → ex_ranged.di_bstart ≤ r ∧ r ≤ ex_ranged.di_bend
            ∧ (hdentry_at ex_ranged.di_hdentry r).map (fun hd => hd.hd_dentry) = some (some 200)
            ∧ ∀ j : Int, ex_ranged.di_bstart ≤ j → j < r →
                (hdentry_at ex_ranged.di_hdentry j).map (fun hd => hd.hd_dentry)
                  ≠ some (some 200)))
      ∧ (ex_ranged.di_bstart = -1 → r = -1) :=
  au_find_dbindex_first_match { d_sb := ex_sb, d_inode := none, d_fsdata := some ex_ranged }
    ex_ranged (some 200) rfl (Or.inl (by decide)) (by decide)
    (fun i _ _ h2 => by
      have e : ex_ranged.di_bend = 2 := rfl
      have l : ex_ranged.di_hdentry.length = 3 := rfl
      rw [l]; rw [e] at h2; omega)

theorem ex_full_last_slot : hdentry_at ex_full.di_hdentry 32767 = some ⟨some 100, 5⟩ := by
  have hlen : (List.replicate 32767 (⟨none, -1⟩ : au_hdentry)).length ≤ 32767 := by
    rw [List.length_replicate]
  simp only [hdentry_at, ex_full]
  rw [if_neg (by decide), show (32767 : Int).toNat = 32767 from rfl,
    List.getElem?_append_right hlen, List.length_replicate]
  rfl

theorem length_replicate_append_singleton (n : Nat) (a b : au_hdentry) :
    (List.replicate n a ++ [b]).length = n + 1 := by
  rw [List.length_append, List.length_replicate, List.length_singleton]

theorem ex_full_length : ex_full.di_hdentry.length = 32767 + 1 :=
  length_replicate_append_singleton 32767 _ _

/-- C4 (counterexample). With `di_bstart = -1` and `di_bend = 1`, slot 0, an index
of `[-1, 1]`, holds the reference 100: `au_find_dbindex(dentry, 100)` returns -1,
not 0, because `au_h_dptr` reports NULL at every index while `di_bstart < 0`. -/
theorem au_find_dbindex_counterexample :
    ex_mixed.di_bstart = -1 ∧ ex_mixed.di_bend = 1
    ∧ hdentry_at ex_mixed.di_hdentry 0 = some ⟨some 100, 5⟩
    ∧ ex_mixed.di_bstart ≤ 0 ∧ (0 : Int) ≤ ex_mixed.di_bend
    ∧ au_h_dptr { d_sb := ex_sb, d_inode := none, d_fsdata := some ex_mixed } 0 = some none
    ∧ au_find_dbindex { d_sb := ex_sb, d_inode := none, d_fsdata := some ex_mixed } (some 100)
        = some (-1)
    ∧ au_find_dbindex { d_sb := ex_sb, d_inode := none, d_fsdata := some ex_mixed } (some 100)
        ≠ some 0 := by
  decide

theorem au_find_dbindex_wraps (d : dentry) (dinfo : au_dinfo) (hd : au_hdentry)
    (hdi : au_di d = some dinfo)
    (hs : dinfo.di_bstart = 32767) (he : dinfo.di_bend = 32767)
    (hlast : hdentry_at dinfo.di_hdentry 32767 = some hd) (hne : hd.hd_dentry ≠ none) :
    au_find_dbindex d none = some (-32768) := by
  have hp1 : au_h_dptr d 32767 = some hd.hd_dentry := by
    rw [au_h_dptr_eq hdi, hs, if_neg (by decide), hlast]
    rfl
  have hp2 : au_h_dptr d (-32768) = some none := by
    rw [au_h_dptr_eq hdi, hs, if_pos (by decide)]
  have hincr : aufs_bindex_incr 32767 = -32768 := by decide
  rw [au_find_dbindex_eq_loop hdi, hs, he, show (65536 : Nat) = 65534 + 1 + 1 from rfl,
    au_find_dbindex_loop_step, if_pos (le_refl _), hp1]
  simp only
  rw [if_neg hne, hincr, au_find_dbindex_loop_step, if_pos (by decide), hp2]
  rfl

/-- The scan at the largest value of `aufs_bindex_t`. With
`di_bstart = di_bend = 32767` and a non-NULL reference in slot 32767, the counter
wraps to -32768 after the first iteration, where `au_h_dptr` reports NULL, so that
`au_find_dbindex(dentry, NULL)` returns -32768. -/
theorem au_find_dbindex_at_bindex_max :
    ex_full.di_bstart = 32767 ∧ ex_full.di_bend = 32767
    ∧ hdentry_at ex_full.di_hdentry 32767 = some ⟨some 100, 5⟩
    ∧ au_find_dbindex { d_sb := ex_sb, d_inode := none, d_fsdata := some ex_full } none
        = some (-32768) :=
  ⟨rfl, rfl, ex_full_last_slot,
    au_find_dbindex_wraps _ ex_full ⟨some 100, 5⟩ rfl rfl rfl ex_full_last_slot
      (by intro h; cases h)⟩

/-! ## Range invariant -/

theorem hdentry_at_of_lt (hdp : List au_hdentry) {i : Int} (h0 : 0 ≤ i)
    (hlt : i < (hdp.length : Int)) : ∃ hd, hdentry_at hdp i = some hd := by
  have hb : i.toNat < hdp.length := by omega
  refine ⟨hdp[i.toNat], ?_⟩
  unfold hdentry_at
  rw [if_neg (by omega)]
  exact List.getElem?_eq_getElem _

theorem au_set_h_dptr_keeps_stamps {d : dentry} {dinfo : au_dinfo} (hdi : au_di d = some dinfo)
    (bindex : Int) (h_dentry : Option Nat)
    (h0 : 0 ≤ bindex) (hlt : bindex < (dinfo.di_hdentry.length : Int))
    (hbr : h_dentry ≠ none → ∃ br, au_sbr d.d_sb bindex = some br)
    (hids : ∀ i br, au_sbr d.d_sb i = some br → 0 ≤ br.br_id)
    (hinv : ∀ i hd, hdentry_at dinfo.di_hdentry i = some hd → hd.hd_dentry ≠ none →
      0 ≤ hd.hd_id ∧ ∃ br, au_sbr d.d_sb i = some br ∧ hd.hd_id = br.br_id) :
    ∃ d1 evs di1, au_set_h_dptr d bindex h_dentry = some (d1, evs)
      ∧ au_di d1 = some di1 ∧ d1.d_sb = d.d_sb
      ∧ di1.di_bstart = dinfo.di_bstart ∧ di1.di_bend = dinfo.di_bend
      ∧ di1.di_hdentry.length = dinfo.di_hdentry.length
      ∧ (∀ i hd, hdentry_at di1.di_hdentry i = some hd → hd.hd_dentry ≠ none →
          0 ≤ hd.hd_id ∧ ∃ br, au_sbr d.d_sb i = some br ∧ hd.hd_id = br.br_id) := by
  obtain ⟨hd0, hslot⟩ := hdentry_at_of_lt dinfo.di_hdentry h0 hlt
  rw [au_set_h_dptr_eq hdi hslot]
  cases h_dentry with
  | none =>
    refine ⟨_, _, _, rfl, rfl, rfl, rfl, rfl, by simp, ?_⟩
    intro i hd hs hne
    by_cases hib : bindex = i
    · subst hib
      rw [hdentry_at_set_self hslot] at hs
      cases hs
      exact absurd rfl hne
    · rw [hdentry_at_set_other _ h0 hib] at hs
      exact hinv i hd hs hne
  | some r =>
    obtain ⟨br, hb⟩ := hbr (by simp)
    simp only [hb, Option.map_some']
    refine ⟨_, _, _, rfl, rfl, rfl, rfl, rfl, by simp, ?_⟩
    intro i hd hs hne
    by_cases hib : bindex = i
    · subst hib
      rw [hdentry_at_set_self hslot] at hs
      cases hs
      exact ⟨hids _ _ hb, br, hb, rfl⟩
    · rw [hdentry_at_set_other _ h0 hib] at hs
      exact hinv i hd hs hne

theorem run_set_h_dptr_keeps_stamps (sb : super_block)
    (hids : ∀ i br, au_sbr sb i = some br → 0 ≤ br.br_id) (calls : List (Int × Option Nat)) :
    ∀ (d : dentry) (dinfo : au_dinfo), au_di d = some dinfo → d.d_sb = sb →
      (∀ c ∈ calls, 0 ≤ c.1 ∧ c.1 < (dinfo.di_hdentry.length : Int)
        ∧ (c.2 ≠ none → ∃ br, au_sbr sb c.1 = some br)) →
      (∀ i hd, hdentry_at dinfo.di_hdentry i = some hd → hd.hd_dentry ≠ none →
        0 ≤ hd.hd_id ∧ ∃ br, au_sbr sb i = some br ∧ hd.hd_id = br.br_id) →
      ∃ d1 evs di1, run_set_h_dptr d calls = some (d1, evs)
        ∧ au_di d1 = some di1
        ∧ di1.di_bstart = dinfo.di_bstart ∧ di1.di_bend = dinfo.di_bend
        ∧ (∀ i hd, hdentry_at di1.di_hdentry i = some hd → hd.hd_dentry ≠ none →
            0 ≤ hd.hd_id ∧ ∃ br, au_sbr sb i = some br ∧ hd.hd_id = br.br_id) := by
  induction calls with
  | nil =>
    intro d dinfo hdi _ _ hinv
    exact ⟨d, [], dinfo, rfl, hdi, rfl, rfl, hinv⟩
  | cons c rest ih =>
    intro d dinfo hdi hsb hvalid hinv
    obtain ⟨hc0, hclt, hcbr⟩ := hvalid c (List.mem_cons_self _ _)
    subst hsb
    obtain ⟨d1, evs1, di1, hset, hdi1, hsb1, hs1, he1, hlen1, hinv1⟩ :=
      au_set_h_dptr_keeps_stamps hdi c.1 c.2 hc0 hclt hcbr hids hinv
    obtain ⟨d2, evs2, di2, hrun, hdi2, hs2, he2, hinv2⟩ :=
      ih d1 di1 hdi1 hsb1
        (fun c1 hc1 => by
          rw [hlen1]
          exact hvalid c1 (List.mem_cons_of_mem _ hc1))
        hinv1
    refine ⟨d2, evs1 ++ evs2, di2, ?_, hdi2, by rw [hs2, hs1], by rw [he2, he1], hinv2⟩
    obtain ⟨c1, c2⟩ := c
    simp only [run_set_h_dptr, hset, hrun]

/-- C5. Starting from a freshly allocated info, let any sequence of
`au_set_h_dptr` calls run, each on an index of the slot array and, when its
reference is non-null, on an index of the branch table (whose identities are
non-negative). After every call of the sequence the calls made so far have
returned, `di_bstart <= di_bend` whenever either is non-negative, and every index
in `[di_bstart, di_bend]` whose slot holds a non-null reference has a non-negative
`hd_id` equal to the `br_id` of the branch at that index. The bounds in fact stay
at -1, and the statement about `hd_id` holds for every slot of the array. -/
theorem range_invariant_after_sets (sb : super_block) (ino : Option inode) (raw : au_dinfo)
    (lsc : Nat) (calls : List (Int × Option Nat))
    (hids : ∀ i br, au_sbr sb i = some br → 0 ≤ br.br_id)
    (hvalid : ∀ c ∈ calls, 0 ≤ c.1 ∧ c.1 < max (au_sbend sb + 1) 1
      ∧ (c.2 ≠ none → ∃ br, au_sbr sb c.1 = some br)) :
    ∃ dinfo0, au_di_alloc (some raw) true sb lsc = some (some dinfo0, [])
      ∧ ∀ k : Nat, ∃ d1 evs di1,
          run_set_h_dptr { d_sb := sb, d_inode := ino, d_fsdata := some dinfo0 } (calls.take k)
            = some (d1, evs)
          ∧ au_di d1 = some di1
          ∧ ((0 ≤ di1.di_bstart ∨ 0 ≤ di1.di_bend) → di1.di_bstart ≤ di1.di_bend)
          ∧ (∀ i hd, di1.di_bstart ≤ i → i ≤ di1.di_bend →
              hdentry_at di1.di_hdentry i = some hd → hd.hd_dentry ≠ none →
              0 ≤ hd.hd_id ∧ ∃ br, au_sbr sb i = some br ∧ hd.hd_id = br.br_id)
          ∧ di1.di_bstart = -1 ∧ di1.di_bend = -1
          ∧ (∀ i hd, hdentry_at di1.di_hdentry i = some hd → hd.hd_dentry ≠ none →
              0 ≤ hd.hd_id ∧ ∃ br, au_sbr sb i = some br ∧ hd.hd_id = br.br_id) := by
  refine ⟨_, au_di_alloc_ok raw sb lsc, fun k => ?_⟩
  have hfresh : ∀ i hd,
      hdentry_at (List.replicate (max (au_sbend sb + 1) 1).toNat
        ({ hd_dentry := none, hd_id := -1 } : au_hdentry)) i = some hd →
      hd.hd_dentry ≠ none →
      0 ≤ hd.hd_id ∧ ∃ br, au_sbr sb i = some br ∧ hd.hd_id = br.br_id := by
    intro i hd hs hne
    exfalso
    obtain ⟨_, _, hget⟩ := hdentry_at_eq_some hs
    have hmem := List.getElem?_mem hget
    rw [List.eq_of_mem_replicate hmem] at hne
    exact hne rfl
  obtain ⟨d1, evs, di1, hrun, hdi1, hs, he, hinv⟩ :=
    run_set_h_dptr_keeps_stamps sb hids (calls.take k)
      { d_sb := sb, d_inode := ino, d_fsdata := some { raw with
          di_hdentry := List.replicate (max (au_sbend sb + 1) 1).toNat
            { hd_dentry := none, hd_id := -1 }
          di_rwsem := au_rw_write_lock_nested raw.di_rwsem lsc
          di_bstart := -1
          di_bend := -1
          di_bwh := -1 } }
      _ rfl rfl
      (fun c hc => by
        obtain ⟨h0, hlt, hbr⟩ := hvalid c (List.mem_of_mem_take hc)
        refine ⟨h0, ?_, hbr⟩
        simp only [List.length_replicate]
        omega)
      hfresh
  refine ⟨d1, evs, di1, hrun, hdi1, ?_, ?_, hs, he, hinv⟩
  · intro _; rw [hs, he]
  · intro i hd _ _ h1 h2; exact hinv i hd h1 h2

/-- Witness for C5: three calls on the three-branch super block `ex_sb`, the
last of them clearing slot 1 again. -/
theorem range_invariant_after_sets_witness :
    ∃ dinfo0, au_di_alloc (some ex_cache) true ex_sb 0 = some (some dinfo0, [])
      ∧ ∀ k : Nat, ∃ d1 evs di1,
          run_set_h_dptr { d_sb := ex_sb, d_inode := none, d_fsdata := some dinfo0 }
            ([(1, some 100), (2, some 200), (1, none)].take k) = some (d1, evs)
          ∧ au_di d1 = some di1
          ∧ ((0 ≤ di1.di_bstart ∨ 0 ≤ di1.di_bend) → di1.di_bstart ≤ di1.di_bend)
          ∧ (∀ i hd, di1.di_bstart ≤ i → i ≤ di1.di_bend →
              hdentry_at di1.di_hdentry i = some hd → hd.hd_dentry ≠ none →
              0 ≤ hd.hd_id ∧ ∃ br, au_sbr ex_sb i = some br ∧ hd.hd_id = br.br_id)
          ∧ di1.di_bstart = -1 ∧ di1.di_bend = -1
          ∧ (∀ i hd, hdentry_at di1.di_hdentry i = some hd → hd.hd_dentry ≠ none →
              0 ≤ hd.hd_id ∧ ∃ br, au_sbr ex_sb i = some br ∧ hd.hd_id = br.br_id) :=
  range_invariant_after_sets ex_sb none ex_cache 0 [(1, some 100), (2, some 200), (1, none)]
    (fun i br h => by
      unfold au_sbr at h
      split at h
      · cases h
      · have hm := List.getElem?_mem h
        simp only [ex_sb, List.mem_cons, List.mem_singleton, List.not_mem_nil, or_false] at hm
        rcases hm with rfl | rfl | rfl <;> decide)
    (by
      intro c hc
      simp only [List.mem_cons, List.mem_singleton, List.not_mem_nil, or_false] at hc
      rcases hc with rfl | rfl | rfl
      · exact ⟨by decide, by decide, fun _ => ⟨⟨7⟩, by decide⟩⟩
      · exact ⟨by decide, by decide, fun _ => ⟨⟨9⟩, by decide⟩⟩
      · exact ⟨by decide, by decide, fun h => absurd rfl h⟩)

/-! ## au_di_alloc -/

/-- C6. For every branch count `n = au_sbend(sb) + 1`, also when `n <= 0`, a
successful `au_di_alloc` returns an info whose slot array has exactly
`max(n, 1)` slots, each with `hd_id = -1` and no reference, and with
`di_bstart = di_bend = di_bwh = -1`; it makes no release call. -/
theorem au_di_alloc_fresh (raw : au_dinfo) (sb : super_block) (lsc : Nat) :
    ∃ dinfo, au_di_alloc (some raw) true sb lsc = some (some dinfo, [])
      ∧ (dinfo.di_hdentry.length : Int) = max (au_sbend sb + 1) 1
      ∧ (∀ i : Int, 0 ≤ i → i < max (au_sbend sb + 1) 1 →
          hdentry_at dinfo.di_hdentry i = some { hd_dentry := none, hd_id := -1 })
      ∧ (∀ hd ∈ dinfo.di_hdentry, hd = { hd_dentry := none, hd_id := -1 })
      ∧ dinfo.di_bstart = -1 ∧ dinfo.di_bend = -1 ∧ dinfo.di_bwh = -1 := by
  refine ⟨_, au_di_alloc_ok raw sb lsc, ?_, ?_, ?_, rfl, rfl, rfl⟩
  · simp only [List.length_replicate]
    omega
  · intro i h0 hlt
    unfold hdentry_at
    rw [if_neg (by omega)]
    simp only
    rw [List.getElem?_replicate_of_lt (by omega)]
  · intro hd hmem
    exact List.eq_of_mem_replicate hmem

/-! ## au_di_free -/

theorem hdput_count_cons_hdput (i j : Int) (hd : au_hdentry) (evs : List Event) :
    hdput_count i (Event.hdput j hd :: evs) = (if j = i then 1 else 0) + hdput_count i evs := by
  unfold hdput_count
  rw [List.countP_cons]
  by_cases h : j = i <;> simp [h, Nat.add_comm]

theorem au_di_free_loop_puts (hdp : List au_hdentry) (bend : Int)
    (hmax : bend < aufs_bindex_max) (fuel : Nat) :
    ∀ bindex : Int, 0 ≤ bindex → (bend + 1 - bindex).toNat ≤ fuel →
      (∀ i : Int, bindex ≤ i → i ≤ bend → i < (hdp.length : Int)) →
      ∃ puts, au_di_free_loop hdp bend fuel bindex bindex = some puts
        ∧ puts.length = (bend + 1 - bindex).toNat
        ∧ (∀ k : Nat, k < (bend + 1 - bindex).toNat →
            ∃ hd, hdentry_at hdp (bindex + k) = some hd
              ∧ puts[k]? = some (Event.hdput (bindex + k) hd))
        ∧ (∀ i : Int, hdput_count i puts = if bindex ≤ i ∧ i ≤ bend then 1 else 0)
        ∧ kfree_count puts = 0 ∧ cache_free_count puts = 0 := by
  induction fuel with
  | zero =>
    intro bindex _ hfuel _
    have hgt : ¬ bindex ≤ bend := by omega
    have hz : (bend + 1 - bindex).toNat = 0 := by omega
    refine ⟨[], by simp [au_di_free_loop, hgt], by simp [hz], ?_, ?_, rfl, rfl⟩
    · intro k hk; omega
    · intro i
      rw [if_neg (by omega)]
      rfl
  | succ n ih =>
    intro bindex h0 hfuel hin
    by_cases hle : bindex ≤ bend
    · obtain ⟨hd, hslot⟩ := hdentry_at_of_lt hdp h0 (hin bindex (le_refl _) hle)
      obtain ⟨rest, hrest, hlen, hkth, hcnt, hk0, hc0⟩ :=
        ih (bindex + 1) (by omega) (by omega) (fun i h1 h2 => hin i (by omega) h2)
      have hsucc : (bend + 1 - bindex).toNat = (bend + 1 - (bindex + 1)).toNat + 1 := by omega
      have hincr : aufs_bindex_incr bindex = bindex + 1 :=
        aufs_bindex_incr_eq (by omega) (by omega)
      refine ⟨Event.hdput bindex hd :: rest,
        by simp [au_di_free_loop, hle, hslot, hincr, hrest, au_hdput], ?_, ?_, ?_, ?_, ?_⟩
      · rw [List.length_cons, hlen, hsucc]
      · intro k hk
        cases k with
        | zero => exact ⟨hd, by simpa using hslot, by simp⟩
        | succ m =>
          obtain ⟨hd1, h1, h2⟩ := hkth m (by omega)
          have e : bindex + ((m + 1 : Nat) : Int) = bindex + 1 + (m : Int) := by push_cast; ring
          refine ⟨hd1, by rw [e]; exact h1, ?_⟩
          rw [e]
          simpa using h2
      · intro i
        rw [hdput_count_cons_hdput, hcnt i]
        by_cases h1 : bindex = i
        · subst h1
          rw [if_pos rfl, if_neg (by omega), if_pos ⟨le_refl _, hle⟩]
        · rw [if_neg h1]
          by_cases h2 : bindex + 1 ≤ i ∧ i ≤ bend
          · rw [if_pos h2, if_pos ⟨by omega, h2.2⟩]
          · rw [if_neg h2, if_neg (by omega)]
      · simpa [kfree_count] using hk0
      · simpa [cache_free_count] using hc0
    · have hz : (bend + 1 - bindex).toNat = 0 := by omega
      refine ⟨[], by simp [au_di_free_loop, hle], by simp [hz], ?_, ?_, rfl, rfl⟩
      · intro k hk; omega
      · intro i
        rw [if_neg (by omega)]
        rfl

theorem au_di_free_trace (dinfo : au_dinfo)
    (hmax : dinfo.di_bend < aufs_bindex_max)
    (hin : ∀ i : Int, 0 ≤ dinfo.di_bstart → dinfo.di_bstart ≤ i → i ≤ dinfo.di_bend →
      i < (dinfo.di_hdentry.length : Int)) :
    ∃ puts, au_di_free dinfo = some (puts ++ [Event.kfree_hdentry, Event.cache_free_dinfo])
      ∧ puts.length
          = (if 0 ≤ dinfo.di_bstart then (dinfo.di_bend + 1 - dinfo.di_bstart).toNat else 0)
      ∧ (∀ k : Nat, k < puts.length →
          ∃ hd, hdentry_at dinfo.di_hdentry (dinfo.di_bstart + k) = some hd
            ∧ puts[k]? = some (Event.hdput (dinfo.di_bstart + k) hd))
      ∧ (∀ i : Int, hdput_count i puts
          = if 0 ≤ dinfo.di_bstart ∧ dinfo.di_bstart ≤ i ∧ i ≤ dinfo.di_bend then 1 else 0)
      ∧ kfree_count puts = 0 ∧ cache_free_count puts = 0 := by
  by_cases hs : 0 ≤ dinfo.di_bstart
  · have hfuel : (dinfo.di_bend + 1 - dinfo.di_bstart).toNat ≤ dinfo.di_hdentry.length + 1 := by
      by_cases hse : dinfo.di_bstart ≤ dinfo.di_bend
      · have := hin dinfo.di_bend hs hse (le_refl _)
        omega
      · omega
    obtain ⟨puts, hp, hlen, hkth, hcnt, hk0, hc0⟩ :=
      au_di_free_loop_puts dinfo.di_hdentry dinfo.di_bend hmax
        (dinfo.di_hdentry.length + 1) dinfo.di_bstart hs hfuel (hin · hs)
    refine ⟨puts, by simp [au_di_free, hs, hp], by rw [if_pos hs, hlen], ?_, ?_, hk0, hc0⟩
    · intro k hk
      exact hkth k (by omega)
    · intro i
      rw [hcnt i]
      by_cases h : dinfo.di_bstart ≤ i ∧ i ≤ dinfo.di_bend
      · rw [if_pos h, if_pos ⟨hs, h⟩]
      · rw [if_neg h, if_neg (fun hh => h hh.2)]
  · refine ⟨[], by simp [au_di_free, hs], by rw [if_neg hs]; rfl, ?_, ?_, rfl, rfl⟩
    · intro k hk
      simp at hk
    · intro i
      rw [if_neg (fun hh => hs hh.1)]
      rfl
theorem hdput_count_append (i : Int) (xs ys : List Event) :
    hdput_count i (xs ++ ys) = hdput_count i xs + hdput_count i ys := by
  unfold hdput_count
  exact List.countP_append _ _ _

theorem kfree_count_append (xs ys : List Event) :
    kfree_count (xs ++ ys) = kfree_count xs + kfree_count ys := by
  unfold kfree_count
  exact List.count_append _ _ _

theorem cache_free_count_append (xs ys : List Event) :
    cache_free_count (xs ++ ys) = cache_free_count xs + cache_free_count ys := by
  unfold cache_free_count
  exact List.count_append _ _ _

/-- C7. For an info with `di_bend` below the largest value of `aufs_bindex_t`
(so that the loop counter does not wrap) whose valid range, when `di_bstart >= 0`, lies inside the slot
array, `au_di_free` calls `au_hdput` on the slots `di_bstart`, `di_bstart + 1`,
..., `di_bend` in this order, each exactly once and on no other slot (on none
when `di_bend < di_bstart`), calls it on no slot when `di_bstart < 0`, and in
every case then frees the slot array once and the info object once. -/
theorem au_di_free_releases_range (dinfo : au_dinfo)
    (hmax : dinfo.di_bend < aufs_bindex_max)
    (hin : ∀ i : Int, 0 ≤ dinfo.di_bstart → dinfo.di_bstart ≤ i → i ≤ dinfo.di_bend →
      i < (dinfo.di_hdentry.length : Int)) :
    ∃ puts, au_di_free dinfo = some (puts ++ [Event.kfree_hdentry, Event.cache_free_dinfo])
      ∧ (∀ k : Nat, k < puts.length →
          ∃ hd, hdentry_at dinfo.di_hdentry (dinfo.di_bstart + k) = some hd
            ∧ puts[k]? = some (Event.hdput (dinfo.di_bstart + k) hd))
      ∧ (∀ i : Int,
          hdput_count i (puts ++ [Event.kfree_hdentry, Event.cache_free_dinfo])
            = if 0 ≤ dinfo.di_bstart ∧ dinfo.di_bstart ≤ i ∧ i ≤ dinfo.di_bend then 1 else 0)
      ∧ (dinfo.di_bstart < 0 ∨ dinfo.di_bend < dinfo.di_bstart → puts = [])
      ∧ kfree_count (puts ++ [Event.kfree_hdentry, Event.cache_free_dinfo]) = 1
      ∧ cache_free_count (puts ++ [Event.kfree_hdentry, Event.cache_free_dinfo]) = 1 := by
  obtain ⟨puts, hfree, hlen, hkth, hcnt, hk0, hc0⟩ := au_di_free_trace dinfo hmax hin
  refine ⟨puts, hfree, hkth, ?_, ?_, ?_, ?_⟩
  · intro i
    rw [hdput_count_append, hcnt i]
    rfl
  · intro hempty
    apply List.eq_nil_of_length_eq_zero
    rw [hlen]
    split
    · omega
    · rfl
  · rw [kfree_count_append, hk0]
    rfl
  · rw [cache_free_count_append, hc0]
    rfl

/-- Witness for C7: an info with three slots and the valid range `[1, 2]`. -/
theorem au_di_free_releases_range_witness :
    ∃ puts, au_di_free ex_ranged = some (puts ++ [Event.kfree_hdentry, Event.cache_free_dinfo])
      ∧ (∀ k : Nat, k < puts.length →
          ∃ hd, hdentry_at ex_ranged.di_hdentry (ex_ranged.di_bstart + k) = some hd
            ∧ puts[k]? = some (Event.hdput (ex_ranged.di_bstart + k) hd))
      ∧ (∀ i : Int,
          hdput_count i (puts ++ [Event.kfree_hdentry, Event.cache_free_dinfo])
            = if 0 ≤ ex_ranged.di_bstart ∧ ex_ranged.di_bstart ≤ i ∧ i ≤ ex_ranged.di_bend
              then 1 else 0)
      ∧ (ex_ranged.di_bstart < 0 ∨ ex_ranged.di_bend < ex_ranged.di_bstart → puts = [])
      ∧ kfree_count (puts ++ [Event.kfree_hdentry, Event.cache_free_dinfo]) = 1
      ∧ cache_free_count (puts ++ [Event.kfree_hdentry, Event.cache_free_dinfo]) = 1 :=
  au_di_free_releases_range ex_ranged (by decide) (fun i _ _ h2 => by
    have e : ex_ranged.di_bend = 2 := rfl
    have l : ex_ranged.di_hdentry.length = 3 := rfl
    rw [l]; rw [e] at h2; omega)

theorem au_di_free_loop_step (hdp : List au_hdentry) (bend : Int) (fuel : Nat)
    (bindex p : Int) :
    au_di_free_loop hdp bend (fuel + 1) bindex p
      = if bindex ≤ bend then
          match hdentry_at hdp p with
          | none => none
          | some hd =>
            match au_di_free_loop hdp bend fuel (aufs_bindex_incr bindex) (p + 1) with
            | none => none
            | some evs => some (au_hdput p hd :: evs)
        else some [] := rfl

theorem ex_full_past_end : hdentry_at ex_full.di_hdentry 32768 = none := by
  unfold hdentry_at
  rw [if_neg (by decide)]
  apply List.getElem?_eq_none
  rw [ex_full_length]
  decide

theorem au_di_free_loop_overrun (hdp : List au_hdentry) (hd : au_hdentry) (fuel : Nat)
    (hlast : hdentry_at hdp 32767 = some hd) (hpast : hdentry_at hdp 32768 = none) :
    au_di_free_loop hdp 32767 (fuel + 1 + 1) 32767 32767 = none := by
  have hincr : aufs_bindex_incr 32767 = -32768 := by decide
  rw [au_di_free_loop_step, if_pos (le_refl _), hlast]
  simp only
  rw [hincr, au_di_free_loop_step, if_pos (by decide),
    show ((32767 : Int) + 1) = 32768 from rfl, hpast]

theorem au_di_free_overrun (dinfo : au_dinfo) (hd : au_hdentry) (n : Nat)
    (hs : dinfo.di_bstart = 32767) (he : dinfo.di_bend = 32767)
    (hlen : dinfo.di_hdentry.length = n + 1)
    (hlast : hdentry_at dinfo.di_hdentry 32767 = some hd)
    (hpast : hdentry_at dinfo.di_hdentry 32768 = none) :
    au_di_free dinfo = none := by
  unfold au_di_free
  simp only [hs, he, hlen]
  rw [if_pos (by decide), au_di_free_loop_overrun _ hd n hlast hpast]

theorem au_di_free_ex_full : au_di_free ex_full = none :=
  au_di_free_overrun ex_full ⟨some 100, 5⟩ 32767 rfl rfl ex_full_length ex_full_last_slot
    ex_full_past_end

/-- The loop of `au_di_free` at the largest value of `aufs_bindex_t`. The info
has 32768 slots and the valid range `[32767, 32767]`. `au_di_free` calls
`au_hdput` on slot 32767, the counter then wraps to -32768, the condition
`bindex <= bend` still holds and the next `au_hdput` is on slot 32768, past the
slot array: the execution leaves the array before `kfree` is reached. -/
theorem au_di_free_at_bindex_max :
    ex_full.di_bstart = 32767 ∧ ex_full.di_bend = 32767
    ∧ ex_full.di_hdentry.length = 32768
    ∧ hdentry_at ex_full.di_hdentry 32767 = some ⟨some 100, 5⟩
    ∧ aufs_bindex_incr 32767 = -32768
    ∧ hdentry_at ex_full.di_hdentry 32768 = none
    ∧ au_di_free ex_full = none :=
  ⟨rfl, rfl, ex_full_length, ex_full_last_slot, by decide, ex_full_past_end,
    au_di_free_ex_full⟩

/-- C8 (as amended). `au_di_free` has no guard against a second call. For an info
with `di_bend` below the largest value of `aufs_bindex_t` (so that the loop
counter does not wrap) whose valid range lies inside the slot array, one call releases every slot of `[di_bstart, di_bend]`, the
slot array and the info object exactly once; a second call on the same info
repeats all of these release calls, so that over the two calls each of them is
made exactly twice. -/
theorem au_di_free_twice_repeats (dinfo : au_dinfo)
    (hmax : dinfo.di_bend < aufs_bindex_max)
    (hin : ∀ i : Int, 0 ≤ dinfo.di_bstart → dinfo.di_bstart ≤ i → i ≤ dinfo.di_bend →
      i < (dinfo.di_hdentry.length : Int)) :
    ∃ evs, au_di_free dinfo = some evs
      ∧ au_di_free_twice dinfo = some (evs ++ evs)
      ∧ kfree_count evs = 1 ∧ cache_free_count evs = 1
      ∧ (∀ i : Int, hdput_count i evs
          = if 0 ≤ dinfo.di_bstart ∧ dinfo.di_bstart ≤ i ∧ i ≤ dinfo.di_bend then 1 else 0)
      ∧ kfree_count (evs ++ evs) = 2 ∧ cache_free_count (evs ++ evs) = 2
      ∧ (∀ i : Int, hdput_count i (evs ++ evs)
          = if 0 ≤ dinfo.di_bstart ∧ dinfo.di_bstart ≤ i ∧ i ≤ dinfo.di_bend then 2 else 0) := by
  obtain ⟨puts, hfree, _, _, hcnt, hk0, hc0⟩ := au_di_free_trace dinfo hmax hin
  have hk1 : kfree_count (puts ++ [Event.kfree_hdentry, Event.cache_free_dinfo]) = 1 := by
    rw [kfree_count_append, hk0]; rfl
  have hc1 : cache_free_count (puts ++ [Event.kfree_hdentry, Event.cache_free_dinfo]) = 1 := by
    rw [cache_free_count_append, hc0]; rfl
  have hp1 : ∀ i : Int,
      hdput_count i (puts ++ [Event.kfree_hdentry, Event.cache_free_dinfo])
        = if 0 ≤ dinfo.di_bstart ∧ dinfo.di_bstart ≤ i ∧ i ≤ dinfo.di_bend then 1 else 0 := by
    intro i
    rw [hdput_count_append, hcnt i]
    rfl
  refine ⟨_, hfree, by simp [au_di_free_twice, hfree], hk1, hc1, hp1, ?_, ?_, ?_⟩
  · rw [kfree_count_append, hk1]
  · rw [cache_free_count_append, hc1]
  · intro i
    rw [hdput_count_append, hp1 i]
    split <;> rfl

/-- Witness for C8: an info with three slots and the valid range `[1, 2]`. -/
theorem au_di_free_twice_repeats_witness :
    ∃ evs, au_di_free ex_ranged = some evs
      ∧ au_di_free_twice ex_ranged = some (evs ++ evs)
      ∧ kfree_count evs = 1 ∧ cache_free_count evs = 1
      ∧ (∀ i : Int, hdput_count i evs
          = if 0 ≤ ex_ranged.di_bstart ∧ ex_ranged.di_bstart ≤ i ∧ i ≤ ex_ranged.di_bend
            then 1 else 0)
      ∧ kfree_count (evs ++ evs) = 2 ∧ cache_free_count (evs ++ evs) = 2
      ∧ (∀ i : Int, hdput_count i (evs ++ evs)
          = if 0 ≤ ex_ranged.di_bstart ∧ ex_ranged.di_bstart ≤ i ∧ i ≤ ex_ranged.di_bend
            then 2 else 0) :=
  au_di_free_twice_repeats ex_ranged (by decide) (fun i _ _ h2 => by
    have e : ex_ranged.di_bend = 2 := rfl
    have l : ex_ranged.di_hdentry.length = 3 := rfl
    rw [l]; rw [e] at h2; omega)

/-- C8 (counterexample). Two `au_di_free` calls on an info with the valid range
`[1, 2]` free the slot array twice, free the info object twice and call
`au_hdput` twice on slot 1 and twice on slot 2. -/
theorem au_di_free_twice_counterexample :
    au_di_free_twice ex_ranged
      = some [Event.hdput 1 ⟨some 100, 7⟩, Event.hdput 2 ⟨some 200, 9⟩,
              Event.kfree_hdentry, Event.cache_free_dinfo,
              Event.hdput 1 ⟨some 100, 7⟩, Event.hdput 2 ⟨some 200, 9⟩,
              Event.kfree_hdentry, Event.cache_free_dinfo]
    ∧ ∃ evs, au_di_free_twice ex_ranged = some evs
        ∧ kfree_count evs = 2 ∧ cache_free_count evs = 2
        ∧ hdput_count 1 evs = 2 ∧ hdput_count 2 evs = 2
        ∧ ¬ (kfree_count evs ≤ 1) ∧ ¬ (cache_free_count evs ≤ 1)
        ∧ ¬ (hdput_count 1 evs ≤ 1) ∧ ¬ (hdput_count 2 evs ≤ 1) := by
  refine ⟨by decide, _, rfl, ?_⟩
  decide

/-! ## au_di_realloc -/

theorem au_di_realloc_eq (dinfo : au_dinfo) (nbr : Int) (ok : Bool)
    (hb : -1 ≤ dinfo.di_bend) (hsz : dinfo.di_bend + 1 < 2 ^ 28)
    (hlen : max (dinfo.di_bend + 1) 1 ≤ (dinfo.di_hdentry.length : Int)) :
    au_di_realloc dinfo nbr ok
      = if nbr % 2 ^ 28 ≤ max (dinfo.di_bend + 1) 1 then some (0, dinfo)
        else if ok = false then some (-ENOMEM, dinfo)
        else some (0, { dinfo with
          di_hdentry := dinfo.di_hdentry.take (max (dinfo.di_bend + 1) 1).toNat
            ++ List.replicate (nbr % 2 ^ 28 - max (dinfo.di_bend + 1) 1).toNat
                { hd_dentry := none, hd_id := 0 } }) := by
  have hused : ((if ((sizeof_au_hdentry : Int) * (dinfo.di_bend + 1)) % 2 ^ 32 = 0
        then (sizeof_au_hdentry : Int)
        else ((sizeof_au_hdentry : Int) * (dinfo.di_bend + 1)) % 2 ^ 32)).toNat
      = 16 * (max (dinfo.di_bend + 1) 1).toNat := by
    simp only [sizeof_au_hdentry]
    split <;> omega
  have hnew : ((((sizeof_au_hdentry : Int) * nbr) % 2 ^ 32).toNat)
      = 16 * (nbr % 2 ^ 28).toNat := by
    simp only [sizeof_au_hdentry]
    omega
  unfold au_di_realloc au_kzrealloc
  simp only [hused, hnew]
  by_cases hle : nbr % 2 ^ 28 ≤ max (dinfo.di_bend + 1) 1
  · rw [if_pos hle, if_pos (by omega)]
  · rw [if_neg hle, if_neg (by omega)]
    cases ok with
    | false => simp
    | true =>
      have h1 : ¬ dinfo.di_hdentry.length * sizeof_au_hdentry
          < 16 * (max (dinfo.di_bend + 1) 1).toNat := by
        simp only [sizeof_au_hdentry]; omega
      have h2 : 16 * (max (dinfo.di_bend + 1) 1).toNat / sizeof_au_hdentry
          = (max (dinfo.di_bend + 1) 1).toNat := by
        simp only [sizeof_au_hdentry]; omega
      have h3 : (16 * (nbr % 2 ^ 28).toNat - 16 * (max (dinfo.di_bend + 1) 1).toNat)
            / sizeof_au_hdentry
          = (nbr % 2 ^ 28 - max (dinfo.di_bend + 1) 1).toNat := by
        simp only [sizeof_au_hdentry]; omega
      rw [if_neg (by decide), if_neg h1, h2, h3]
      rfl

theorem hdentry_at_take_append {hdp : List au_hdentry} {i : Int} (n : Nat)
    (tail : List au_hdentry) (h0 : 0 ≤ i) (hlt : i < (n : Int)) (hn : n ≤ hdp.length) :
    hdentry_at (hdp.take n ++ tail) i = hdentry_at hdp i := by
  have hneg : ¬ i < 0 := by omega
  have hl : i.toNat < (hdp.take n).length := by
    rw [List.length_take]; omega
  simp only [hdentry_at, hneg, if_false]
  rw [List.getElem?_append_left hl, List.getElem?_take_of_lt (by omega)]

theorem hdentry_at_append_replicate {hdp : List au_hdentry} {i : Int} (m : Nat) (v : au_hdentry)
    (hge : (hdp.length : Int) ≤ i) (hlt : i < (hdp.length : Int) + m) :
    hdentry_at (hdp ++ List.replicate m v) i = some v := by
  unfold hdentry_at
  rw [if_neg (by omega)]
  rw [List.getElem?_append_right (by omega), List.getElem?_replicate_of_lt (by omega)]

/-- C9. For an info populated on the range `[s, e] = [di_bstart, di_bend]`,
`0 <= s <= e`, which lies inside the slot array, and for every `n` (in particular
every `n >= e - s + 1`), `au_di_realloc(dinfo, n)` returns, succeeds whenever the
allocator does, and when it succeeds every slot of the range has in the new slot
array, at the same index, the `(hd_id, hd_dentry)` pair it had before. -/
theorem au_di_realloc_preserves_range (dinfo : au_dinfo) (n : Int) (ok : Bool)
    (hs : 0 ≤ dinfo.di_bstart) (hse : dinfo.di_bstart ≤ dinfo.di_bend)
    (hsz : dinfo.di_bend + 1 < 2 ^ 28)
    (hlen : dinfo.di_bend + 1 ≤ (dinfo.di_hdentry.length : Int)) :
    ∃ err dinfo1, au_di_realloc dinfo n ok = some (err, dinfo1)
      ∧ (ok = true → err = 0)
      ∧ (err = 0 → ∀ i : Int, dinfo.di_bstart ≤ i → i ≤ dinfo.di_bend →
          ∃ hd, hdentry_at dinfo.di_hdentry i = some hd
            ∧ hdentry_at dinfo1.di_hdentry i = some hd) := by
  have hmax : max (dinfo.di_bend + 1) 1 = dinfo.di_bend + 1 := by omega
  rw [au_di_realloc_eq dinfo n ok (by omega) hsz (by omega)]
  by_cases hle : n % 2 ^ 28 ≤ max (dinfo.di_bend + 1) 1
  · rw [if_pos hle]
    refine ⟨0, dinfo, rfl, fun _ => rfl, fun _ i h1 h2 => ?_⟩
    obtain ⟨hd, hh⟩ := hdentry_at_of_lt dinfo.di_hdentry (by omega : 0 ≤ i) (by omega)
    exact ⟨hd, hh, hh⟩
  · rw [if_neg hle]
    cases ok with
    | false =>
      refine ⟨-ENOMEM, dinfo, rfl, (by intro h; cases h), fun h => ?_⟩
      exact absurd h (by decide)
    | true =>
      refine ⟨0, _, rfl, fun _ => rfl, fun _ i h1 h2 => ?_⟩
      obtain ⟨hd, hh⟩ := hdentry_at_of_lt dinfo.di_hdentry (by omega : 0 ≤ i) (by omega)
      refine ⟨hd, hh, ?_⟩
      simp only
      rw [hdentry_at_take_append _ _ (by omega) (by omega) (by omega)]
      exact hh

/-- Witness for C9: three slots, the valid range `[1, 2]`, resized to 5
slots. -/
theorem au_di_realloc_preserves_range_witness :
    ∃ err dinfo1, au_di_realloc ex_ranged 5 true = some (err, dinfo1)
      ∧ (true = true → err = 0)
      ∧ (err = 0 → ∀ i : Int, ex_ranged.di_bstart ≤ i → i ≤ ex_ranged.di_bend →
          ∃ hd, hdentry_at ex_ranged.di_hdentry i = some hd
            ∧ hdentry_at dinfo1.di_hdentry i = some hd) :=
  au_di_realloc_preserves_range ex_ranged 5 true (by decide) (by decide) (by decide) (by decide)

/-- C10 (as amended). For an info with `di_bend >= -1` whose first
`max(di_bend + 1, 1)` slots lie inside the slot array and for `0 <= nbr < 2^28`,
`au_di_realloc(dinfo, nbr)` returns and succeeds whenever the allocator does.
After a successful call the preserved part is the first `max(di_bend + 1, 1)`
slots, a count taken from `di_bend` alone: when `nbr` does not exceed it the
array is left as it is, and otherwise the array has `nbr` slots, the preserved
slots keep their content at the same index, and every slot beyond them up to
`nbr` is a new zero-filled slot, with no reference and `hd_id = 0`. -/
theorem au_di_realloc_grows_zero_filled (dinfo : au_dinfo) (nbr : Int) (ok : Bool)
    (hb : -1 ≤ dinfo.di_bend) (hsz : dinfo.di_bend + 1 < 2 ^ 28)
    (hlen : max (dinfo.di_bend + 1) 1 ≤ (dinfo.di_hdentry.length : Int))
    (h0 : 0 ≤ nbr) (hn : nbr < 2 ^ 28) :
    ∃ err dinfo1, au_di_realloc dinfo nbr ok = some (err, dinfo1)
      ∧ (ok = true → err = 0)
      ∧ (err = 0 →
          (nbr ≤ max (dinfo.di_bend + 1) 1 → dinfo1 = dinfo)
          ∧ (max (dinfo.di_bend + 1) 1 < nbr →
              (dinfo1.di_hdentry.length : Int) = nbr
              ∧ (∀ i : Int, 0 ≤ i → i < max (dinfo.di_bend + 1) 1 →
                  hdentry_at dinfo1.di_hdentry i = hdentry_at dinfo.di_hdentry i)
              ∧ (∀ i : Int, max (dinfo.di_bend + 1) 1 ≤ i → i < nbr →
                  hdentry_at dinfo1.di_hdentry i = some { hd_dentry := none, hd_id := 0 }))) := by
  have hmod : nbr % 2 ^ 28 = nbr := by omega
  rw [au_di_realloc_eq dinfo nbr ok hb hsz hlen, hmod]
  by_cases hle : nbr ≤ max (dinfo.di_bend + 1) 1
  · rw [if_pos hle]
    exact ⟨0, dinfo, rfl, fun _ => rfl, fun _ => ⟨fun _ => rfl, fun h => absurd hle (by omega)⟩⟩
  · rw [if_neg hle]
    cases ok with
    | false =>
      refine ⟨-ENOMEM, dinfo, rfl, (by intro h; cases h), fun h => ?_⟩
      exact absurd h (by decide)
    | true =>
      have hused : (List.take (max (dinfo.di_bend + 1) 1).toNat dinfo.di_hdentry).length
          = (max (dinfo.di_bend + 1) 1).toNat := by
        rw [List.length_take]; omega
      refine ⟨0, _, rfl, fun _ => rfl, fun _ => ⟨fun h => absurd h hle, fun _ => ⟨?_, ?_, ?_⟩⟩⟩
      · simp only [if_false, List.length_append, List.length_replicate, hused]
        omega
      · intro i hi0 hilt
        simp only [if_false]
        exact hdentry_at_take_append _ _ hi0 (by omega) (by omega)
      · intro i hige hilt
        simp only [if_false]
        exact hdentry_at_append_replicate _ _ (by rw [hused]; omega) (by rw [hused]; omega)

/-- Witness for C10: three slots with `di_bend = 2`, resized to 5 slots. -/
theorem au_di_realloc_grows_zero_filled_witness :
    ∃ err dinfo1, au_di_realloc ex_ranged 5 true = some (err, dinfo1)
      ∧ (true = true → err = 0)
      ∧ (err = 0 →
          ((5 : Int) ≤ max (ex_ranged.di_bend + 1) 1 → dinfo1 = ex_ranged)
          ∧ (max (ex_ranged.di_bend + 1) 1 < 5 →
              (dinfo1.di_hdentry.length : Int) = 5
              ∧ (∀ i : Int, 0 ≤ i → i < max (ex_ranged.di_bend + 1) 1 →
                  hdentry_at dinfo1.di_hdentry i = hdentry_at ex_ranged.di_hdentry i)
              ∧ (∀ i : Int, max (ex_ranged.di_bend + 1) 1 ≤ i → i < 5 →
                  hdentry_at dinfo1.di_hdentry i
                    = some { hd_dentry := none, hd_id := 0 }))) :=
  au_di_realloc_grows_zero_filled ex_ranged 5 true (by decide) (by decide) (by decide)
    (by decide) (by decide)

/-- C10 (counterexample). Three slots, `di_bstart = 1`, `di_bend = 2`, resized to
4 slots: the range length is 2, yet slot 2 is preserved with its reference 200
and its identity 9, and the one new slot, slot 3, has `hd_id = 0`; so the slots
from index 2 up to 4 are not new slots with `hd_id = -1` and no reference. -/
theorem au_di_realloc_counterexample :
    max (ex_ranged.di_bend - ex_ranged.di_bstart + 1) 1 = 2
    ∧ au_di_realloc ex_ranged 4 true
        = some (0, { ex_ranged with
            di_hdentry := [⟨none, -1⟩, ⟨some 100, 7⟩, ⟨some 200, 9⟩, ⟨none, 0⟩] })
    ∧ ∃ dinfo1, au_di_realloc ex_ranged 4 true = some (0, dinfo1)
        ∧ hdentry_at dinfo1.di_hdentry 2 = some ⟨some 200, 9⟩
        ∧ hdentry_at dinfo1.di_hdentry 3 = some ⟨none, 0⟩
        ∧ ¬ (∀ i : Int, max (ex_ranged.di_bend - ex_ranged.di_bstart + 1) 1 ≤ i → i < 4 →
              hdentry_at dinfo1.di_hdentry i = some ⟨none, -1⟩) := by
  refine ⟨by decide, by decide,
    { ex_ranged with
        di_hdentry := [⟨none, -1⟩, ⟨some 100, 7⟩, ⟨some 200, 9⟩, ⟨none, 0⟩] },
    by decide, by decide, by decide, fun h => ?_⟩
  have h2 := h 2 (by decide) (by decide)
  revert h2
  decide

/-! ## Allocation failures -/

/-- C11. For an info with `di_bend >= -1` whose first `max(di_bend + 1, 1)` slots
lie inside the slot array and for `0 <= nbr < 2^28`, `au_di_realloc(dinfo, nbr)`
returns `-ENOMEM` exactly when the reallocation fails, that is when
`au_kzrealloc` returns NULL, which it does when the array has to grow and the
allocator fails, and returns 0 otherwise. On failure the info is unchanged:
`di_hdentry` is the prior slot array with all its contents and `di_bstart`,
`di_bend`, `di_bwh` and `di_generation` are what they were. -/
theorem au_di_realloc_enomem (dinfo : au_dinfo) (nbr : Int) (ok : Bool)
    (hb : -1 ≤ dinfo.di_bend) (hsz : dinfo.di_bend + 1 < 2 ^ 28)
    (hlen : max (dinfo.di_bend + 1) 1 ≤ (dinfo.di_hdentry.length : Int))
    (h0 : 0 ≤ nbr) (hn : nbr < 2 ^ 28) :
    ∃ err dinfo1, au_di_realloc dinfo nbr ok = some (err, dinfo1)
      ∧ (err = -ENOMEM ↔
          au_kzrealloc dinfo.di_hdentry
            (sizeof_au_hdentry * (max (dinfo.di_bend + 1) 1).toNat)
            (sizeof_au_hdentry * nbr.toNat) ok = some none)
      ∧ (err = -ENOMEM ↔ (max (dinfo.di_bend + 1) 1 < nbr ∧ ok = false))
      ∧ (err ≠ -ENOMEM → err = 0)
      ∧ (err = -ENOMEM → dinfo1 = dinfo)
      ∧ (err = -ENOMEM → dinfo1.di_hdentry = dinfo.di_hdentry
          ∧ dinfo1.di_bstart = dinfo.di_bstart ∧ dinfo1.di_bend = dinfo.di_bend
          ∧ dinfo1.di_bwh = dinfo.di_bwh ∧ dinfo1.di_generation = dinfo.di_generation) := by
  have hmod : nbr % 2 ^ 28 = nbr := by omega
  have hne : (-ENOMEM : Int) ≠ 0 := by decide
  have hkz : au_kzrealloc dinfo.di_hdentry
        (sizeof_au_hdentry * (max (dinfo.di_bend + 1) 1).toNat)
        (sizeof_au_hdentry * nbr.toNat) ok = some none
      ↔ (max (dinfo.di_bend + 1) 1 < nbr ∧ ok = false) := by
    unfold au_kzrealloc
    simp only [sizeof_au_hdentry]
    by_cases hle : nbr ≤ max (dinfo.di_bend + 1) 1
    · rw [if_pos (by omega)]
      constructor
      · intro h; cases h
      · intro h; omega
    · rw [if_neg (by omega)]
      cases ok with
      | false => simp; omega
      | true =>
        rw [if_neg (by decide)]
        constructor
        · intro h
          split at h <;> cases h
        · intro h
          exact absurd h.2 (by decide)
  rw [au_di_realloc_eq dinfo nbr ok hb hsz hlen, hmod]
  by_cases hle : nbr ≤ max (dinfo.di_bend + 1) 1
  · rw [if_pos hle]
    have hno : ¬ (max (dinfo.di_bend + 1) 1 < nbr ∧ ok = false) := fun h => by omega
    refine ⟨0, dinfo, rfl, ⟨fun h => absurd h.symm hne, fun h => absurd (hkz.mp h) hno⟩,
      ⟨fun h => absurd h.symm hne, fun h => absurd h hno⟩,
      fun _ => rfl, fun _ => rfl, fun _ => ⟨rfl, rfl, rfl, rfl, rfl⟩⟩
  · rw [if_neg hle]
    cases ok with
    | false =>
      have hyes : max (dinfo.di_bend + 1) 1 < nbr ∧ false = false := ⟨by omega, rfl⟩
      exact ⟨-ENOMEM, dinfo, rfl, ⟨fun _ => hkz.mpr hyes, fun _ => rfl⟩,
        ⟨fun _ => hyes, fun _ => rfl⟩,
        fun h => absurd rfl h, fun _ => rfl, fun _ => ⟨rfl, rfl, rfl, rfl, rfl⟩⟩
    | true =>
      have hno : ¬ (max (dinfo.di_bend + 1) 1 < nbr ∧ true = false) :=
        fun h => absurd h.2 (by decide)
      exact ⟨0, _, rfl, ⟨fun h => absurd h.symm hne, fun h => absurd (hkz.mp h) hno⟩,
        ⟨fun h => absurd h.symm hne, fun h => absurd h hno⟩,
        fun _ => rfl, fun h => absurd h.symm hne, fun h => absurd h.symm hne⟩

/-- Witness for C11: three slots with `di_bend = 2`, a resize to 5 slots that
the allocator refuses. -/
theorem au_di_realloc_enomem_witness :
    ∃ err dinfo1, au_di_realloc ex_ranged 5 false = some (err, dinfo1)
      ∧ (err = -ENOMEM ↔
          au_kzrealloc ex_ranged.di_hdentry
            (sizeof_au_hdentry * (max (ex_ranged.di_bend + 1) 1).toNat)
            (sizeof_au_hdentry * (5 : Int).toNat) false = some none)
      ∧ (err = -ENOMEM ↔ (max (ex_ranged.di_bend + 1) 1 < 5 ∧ false = false))
      ∧ (err ≠ -ENOMEM → err = 0)
      ∧ (err = -ENOMEM → dinfo1 = ex_ranged)
      ∧ (err = -ENOMEM → dinfo1.di_hdentry = ex_ranged.di_hdentry
          ∧ dinfo1.di_bstart = ex_ranged.di_bstart ∧ dinfo1.di_bend = ex_ranged.di_bend
          ∧ dinfo1.di_bwh = ex_ranged.di_bwh
          ∧ dinfo1.di_generation = ex_ranged.di_generation) :=
  au_di_realloc_enomem ex_ranged 5 false (by decide) (by decide) (by decide) (by decide)
    (by decide)

theorem au_di_alloc_cases (cache : Option au_dinfo) (ok : Bool) (sb : super_block) (lsc : Nat) :
    (cache = none → au_di_alloc cache ok sb lsc = some (none, []))
    ∧ (∀ raw, cache = some raw → ok = false →
        au_di_alloc cache ok sb lsc = some (none, [Event.cache_free_dinfo]))
    ∧ (∀ raw, cache = some raw → ok = true →
        au_di_alloc cache ok sb lsc
          = some (some { raw with
              di_hdentry := List.replicate (max (au_sbend sb + 1) 1).toNat
                { hd_dentry := none, hd_id := -1 }
              di_rwsem := au_rw_write_lock_nested raw.di_rwsem lsc
              di_bstart := -1
              di_bend := -1
              di_bwh := -1 }, [])) := by
  refine ⟨fun h => by rw [h]; rfl, fun raw h1 h2 => ?_, fun raw h1 h2 => ?_⟩
  · rw [h1, h2]
    simp [au_di_alloc, kcalloc]
  · rw [h1, h2]
    exact au_di_alloc_ok raw sb lsc

/-- C12. `au_di_alloc` returns NULL exactly when the allocation of the info
object or of its slot array fails; when the slot array allocation fails the info
object already obtained is given back with one `au_cache_free_dinfo` call, and no
release call is made in the other cases. `au_di_init` returns `-ENOMEM` exactly
in those cases, leaving the dentry, `d_fsdata` included, as it was, and otherwise
returns 0 with `d_fsdata` set to the new info, stamped with `au_sigen(sb)`. -/
theorem au_di_alloc_init_enomem (cache : Option au_dinfo) (ok : Bool) (d : dentry) (lsc : Nat) :
    (∃ res evs, au_di_alloc cache ok d.d_sb lsc = some (res, evs)
      ∧ (res = none ↔ (cache = none ∨ ok = false))
      ∧ (cache = none → evs = [])
      ∧ (cache ≠ none → ok = false → evs = [Event.cache_free_dinfo])
      ∧ (res ≠ none → evs = []))
    ∧ (∃ err d1 evs, au_di_init d cache ok = some (err, d1, evs)
      ∧ (err = -ENOMEM ↔ (cache = none ∨ ok = false))
      ∧ (err = -ENOMEM → d1 = d)
      ∧ (err ≠ -ENOMEM → err = 0
          ∧ ∃ dinfo, au_di_alloc cache ok d.d_sb AuLsc_DI_CHILD = some (some dinfo, [])
            ∧ d1 = { d with d_fsdata := some { dinfo with di_generation := au_sigen d.d_sb } }
            ∧ evs = [])) := by
  have hne : (-ENOMEM : Int) ≠ 0 := by decide
  cases cache with
  | none =>
    refine ⟨⟨none, [], rfl, ⟨fun _ => Or.inl rfl, fun _ => rfl⟩, fun _ => rfl,
      fun h => absurd rfl h, fun _ => rfl⟩, ?_⟩
    exact ⟨-ENOMEM, d, [], rfl, ⟨fun _ => Or.inl rfl, fun _ => rfl⟩, fun _ => rfl,
      fun h => absurd rfl h⟩
  | some raw =>
    cases ok with
    | false =>
      have h1 := (au_di_alloc_cases (some raw) false d.d_sb lsc).2.1 raw rfl rfl
      have h2 := (au_di_alloc_cases (some raw) false d.d_sb AuLsc_DI_CHILD).2.1 raw rfl rfl
      refine ⟨⟨none, _, h1, ⟨fun _ => Or.inr rfl, fun _ => rfl⟩, (by intro h; cases h),
        fun _ _ => rfl, fun h => absurd rfl h⟩, ?_⟩
      refine ⟨-ENOMEM, d, [Event.cache_free_dinfo], ?_, ⟨fun _ => Or.inr rfl, fun _ => rfl⟩,
        fun _ => rfl, fun h => absurd rfl h⟩
      simp only [au_di_init, h2]
    | true =>
      have h1 := (au_di_alloc_cases (some raw) true d.d_sb lsc).2.2 raw rfl rfl
      have h2 := (au_di_alloc_cases (some raw) true d.d_sb AuLsc_DI_CHILD).2.2 raw rfl rfl
      refine ⟨⟨some _, [], h1, ⟨(by intro h; cases h), fun h => ?_⟩, (by intro h; cases h),
        (by intro _ h; cases h), fun _ => rfl⟩, ?_⟩
      · rcases h with h | h <;> cases h
      refine ⟨0, _, [], ?_, ⟨fun h => absurd h.symm hne, fun h => ?_⟩,
        fun h => absurd h.symm hne, fun _ => ⟨rfl, _, h2, rfl, rfl⟩⟩
      · simp only [au_di_init, h2]
      · rcases h with h | h <;> cases h

/-! ## Generation test -/

/-- C13. `au_digen_test(dentry, sigen)` returns `-EIO` if and only if the
generation stamp of the dentry differs from `sigen` or the generation check of
the inode, `au_iigen_test(inode, sigen)`, reports a mismatch, and returns 0
otherwise; each of the two conditions alone is sufficient. -/
theorem au_digen_test_either (d : dentry) (dinfo : au_dinfo) (sigen : Nat)
    (hdi : au_di d = some dinfo) :
    ∃ err, au_digen_test d sigen = some err
      ∧ (err = - EIO ↔ (dinfo.di_generation ≠ sigen ∨ au_iigen_test d.d_inode sigen ≠ 0))
      ∧ (err = 0 ↔ ¬ (dinfo.di_generation ≠ sigen ∨ au_iigen_test d.d_inode sigen ≠ 0))
      ∧ (dinfo.di_generation ≠ sigen → err = - EIO)
      ∧ (au_iigen_test d.d_inode sigen ≠ 0 → err = - EIO) := by
  have hne : (- EIO : Int) ≠ 0 := by decide
  have hgen : au_digen d = some dinfo.di_generation := by
    simp [au_digen, hdi]
  by_cases hc : dinfo.di_generation ≠ sigen ∨ au_iigen_test d.d_inode sigen ≠ 0
  · refine ⟨- EIO, ?_, ⟨fun _ => hc, fun _ => rfl⟩, ⟨fun h => absurd h hne, fun h => absurd hc h⟩,
      fun _ => rfl, fun _ => rfl⟩
    simp only [au_digen_test, hgen, if_pos hc]
  · refine ⟨0, ?_, ⟨fun h => absurd h.symm hne, fun h => absurd h hc⟩, ⟨fun _ => hc, fun _ => rfl⟩,
      fun h => absurd (Or.inl h) hc, fun h => absurd (Or.inr h) hc⟩
    simp only [au_digen_test, hgen, if_neg hc]

/-- Witness for C13: the stamp 4 of the info equals `sigen`, the inode has the
generation 3, and the test reports `-EIO`. -/
theorem au_digen_test_either_witness :
    ∃ err, au_digen_test ex_stale_inode_dentry 4 = some err
      ∧ (err = - EIO ↔ (ex_ranged.di_generation ≠ 4
            ∨ au_iigen_test ex_stale_inode_dentry.d_inode 4 ≠ 0))
      ∧ (err = 0 ↔ ¬ (ex_ranged.di_generation ≠ 4
            ∨ au_iigen_test ex_stale_inode_dentry.d_inode 4 ≠ 0))
      ∧ (ex_ranged.di_generation ≠ 4 → err = - EIO)
      ∧ (au_iigen_test ex_stale_inode_dentry.d_inode 4 ≠ 0 → err = - EIO) :=
  au_digen_test_either ex_stale_inode_dentry ex_ranged 4 rfl

theorem au_digen_test_eq {d : dentry} {dinfo : au_dinfo} (hdi : au_di d = some dinfo)
    (sigen : Nat) :
    au_digen_test d sigen
      = if dinfo.di_generation ≠ sigen ∨ au_iigen_test d.d_inode sigen ≠ 0
        then some (- EIO) else some 0 := by
  simp only [au_digen_test, au_digen, hdi, Option.map_some']

/-- C14 (as amended). After `au_update_digen(dentry)`, and likewise after a
successful `au_di_init(dentry)`, the stamp of the info equals the global
generation `g = au_sigen(sb)`. Immediately afterwards `au_digen_test(dentry, g)`
returns 0 provided the generation check of the inode reports no mismatch for
`g`, and returns `-EIO` when that check reports one; for every later global
generation `g2 > g` reached without a new stamp, `au_digen_test(dentry, g2)`
returns `-EIO`. -/
theorem stamp_then_digen_test (d : dentry) (dinfo raw : au_dinfo)
    (hdi : au_di d = some dinfo) :
    (∃ d1 di1, au_update_digen d = some d1 ∧ au_di d1 = some di1
      ∧ di1.di_generation = au_sigen d.d_sb
      ∧ (au_iigen_test d.d_inode (au_sigen d.d_sb) = 0 →
          au_digen_test d1 (au_sigen d.d_sb) = some 0)
      ∧ (au_iigen_test d.d_inode (au_sigen d.d_sb) ≠ 0 →
          au_digen_test d1 (au_sigen d.d_sb) = some (- EIO))
      ∧ (∀ g2 : Nat, au_sigen d.d_sb < g2 → au_digen_test d1 g2 = some (- EIO)))
    ∧ (∃ d1 di1, au_di_init d (some raw) true = some (0, d1, []) ∧ au_di d1 = some di1
      ∧ di1.di_generation = au_sigen d.d_sb
      ∧ (au_iigen_test d.d_inode (au_sigen d.d_sb) = 0 →
          au_digen_test d1 (au_sigen d.d_sb) = some 0)
      ∧ (au_iigen_test d.d_inode (au_sigen d.d_sb) ≠ 0 →
          au_digen_test d1 (au_sigen d.d_sb) = some (- EIO))
      ∧ (∀ g2 : Nat, au_sigen d.d_sb < g2 → au_digen_test d1 g2 = some (- EIO))) := by
  have key : ∀ (di1 : au_dinfo), di1.di_generation = au_sigen d.d_sb →
      (au_iigen_test d.d_inode (au_sigen d.d_sb) = 0 →
          au_digen_test { d with d_fsdata := some di1 } (au_sigen d.d_sb) = some 0)
      ∧ (au_iigen_test d.d_inode (au_sigen d.d_sb) ≠ 0 →
          au_digen_test { d with d_fsdata := some di1 } (au_sigen d.d_sb) = some (- EIO))
      ∧ (∀ g2 : Nat, au_sigen d.d_sb < g2 →
          au_digen_test { d with d_fsdata := some di1 } g2 = some (- EIO)) := by
    intro di1 hgen
    have hd1 : au_di { d with d_fsdata := some di1 } = some di1 := rfl
    refine ⟨fun h => ?_, fun h => ?_, fun g2 hg => ?_⟩
    · rw [au_digen_test_eq hd1, if_neg]
      rintro (h1 | h1)
      · exact h1 hgen
      · exact h1 h
    · rw [au_digen_test_eq hd1, if_pos (Or.inr h)]
    · rw [au_digen_test_eq hd1, if_pos]
      left
      rw [hgen]
      omega
  constructor
  · refine ⟨{ d with d_fsdata := some { dinfo with di_generation := au_sigen d.d_sb } }, _,
      by simp only [au_update_digen, hdi], rfl, rfl, ?_⟩
    exact key _ rfl
  · refine ⟨{ d with d_fsdata := some { raw with
        di_hdentry := List.replicate (max (au_sbend d.d_sb + 1) 1).toNat
          { hd_dentry := none, hd_id := -1 }
        di_rwsem := au_rw_write_lock_nested raw.di_rwsem AuLsc_DI_CHILD
        di_bstart := -1
        di_bend := -1
        di_bwh := -1
        di_generation := au_sigen d.d_sb } }, _, ?_, rfl, rfl, key _ rfl⟩
    simp only [au_di_init, au_di_alloc_ok]

/-- Witness for C14: the info `ex_ranged` on a dentry of `ex_sb` whose inode has
the current generation 4. -/
theorem stamp_then_digen_test_witness :
    ∃ d1 di1, au_update_digen ex_unlocked_dentry = some d1 ∧ au_di d1 = some di1
      ∧ di1.di_generation = au_sigen ex_unlocked_dentry.d_sb
      ∧ (au_iigen_test ex_unlocked_dentry.d_inode (au_sigen ex_unlocked_dentry.d_sb) = 0 →
          au_digen_test d1 (au_sigen ex_unlocked_dentry.d_sb) = some 0)
      ∧ (au_iigen_test ex_unlocked_dentry.d_inode (au_sigen ex_unlocked_dentry.d_sb) ≠ 0 →
          au_digen_test d1 (au_sigen ex_unlocked_dentry.d_sb) = some (- EIO))
      ∧ (∀ g2 : Nat, au_sigen ex_unlocked_dentry.d_sb < g2 →
          au_digen_test d1 g2 = some (- EIO)) :=
  (stamp_then_digen_test ex_unlocked_dentry { ex_ranged with di_rwsem := ⟨none, []⟩ } ex_cache
    rfl).1

/-- C14 (counterexample). The global generation is 4 and the inode of the dentry
still has the generation 3. `au_update_digen` stamps the info with 4, and
`au_digen_test(dentry, 4)` immediately afterwards returns `-EIO`, not 0. -/
theorem stamp_then_digen_test_counterexample :
    au_sigen ex_stale_inode_dentry.d_sb = 4
    ∧ ∃ d1, au_update_digen ex_stale_inode_dentry = some d1
        ∧ au_digen d1 = some 4
        ∧ au_digen_test d1 4 = some (- EIO)
        ∧ au_digen_test d1 4 ≠ some 0 := by
  refine ⟨by decide, ex_stale_inode_dentry, by decide, by decide, by decide, by decide⟩

/-! ## Lock positions -/

theorem do_ii_write_lock_at (i : inode) {lsc : Nat} (hpos : lsc ∈ di_lock_positions) :
    do_ii_write_lock i lsc = some (ii_write_lock_at i lsc) := by
  simp only [di_lock_positions, List.mem_cons, List.mem_singleton, List.not_mem_nil,
    or_false] at hpos
  rcases hpos with rfl | rfl | rfl | rfl | rfl | rfl <;> rfl

theorem do_ii_read_lock_at (i : inode) {lsc : Nat} (hpos : lsc ∈ di_lock_positions) :
    do_ii_read_lock i lsc = some (ii_read_lock_at i lsc) := by
  simp only [di_lock_positions, List.mem_cons, List.mem_singleton, List.not_mem_nil,
    or_false] at hpos
  rcases hpos with rfl | rfl | rfl | rfl | rfl | rfl <;> rfl

/-- C18. For each of the six positions of the path lock, `do_ii_write_lock`
write-locks and `do_ii_read_lock` read-locks the inode lock at the position of
the same name; the six path positions are distinct and so are the six inode
positions they map to; the `BUG()` of the default branch is reached exactly when
the position is none of the six. -/
theorem do_ii_lock_dispatch (i : inode) :
    (do_ii_write_lock i AuLsc_DI_CHILD
        = some ({ i with ii_rwsem := { i.ii_rwsem with writer := some AuLsc_II_CHILD } },
            [LockEvent.ii (rw_op.write_lock AuLsc_II_CHILD)])
      ∧ do_ii_write_lock i AuLsc_DI_CHILD2
        = some ({ i with ii_rwsem := { i.ii_rwsem with writer := some AuLsc_II_CHILD2 } },
            [LockEvent.ii (rw_op.write_lock AuLsc_II_CHILD2)])
      ∧ do_ii_write_lock i AuLsc_DI_CHILD3
        = some ({ i with ii_rwsem := { i.ii_rwsem with writer := some AuLsc_II_CHILD3 } },
            [LockEvent.ii (rw_op.write_lock AuLsc_II_CHILD3)])
      ∧ do_ii_write_lock i AuLsc_DI_PARENT
        = some ({ i with ii_rwsem := { i.ii_rwsem with writer := some AuLsc_II_PARENT } },
            [LockEvent.ii (rw_op.write_lock AuLsc_II_PARENT)])
      ∧ do_ii_write_lock i AuLsc_DI_PARENT2
        = some ({ i with ii_rwsem := { i.ii_rwsem with writer := some AuLsc_II_PARENT2 } },
            [LockEvent.ii (rw_op.write_lock AuLsc_II_PARENT2)])
      ∧ do_ii_write_lock i AuLsc_DI_PARENT3
        = some ({ i with ii_rwsem := { i.ii_rwsem with writer := some AuLsc_II_PARENT3 } },
            [LockEvent.ii (rw_op.write_lock AuLsc_II_PARENT3)]))
    ∧ (do_ii_read_lock i AuLsc_DI_CHILD
        = some ({ i with ii_rwsem := { i.ii_rwsem with
                    readers := AuLsc_II_CHILD :: i.ii_rwsem.readers } },
            [LockEvent.ii (rw_op.read_lock AuLsc_II_CHILD)])
      ∧ do_ii_read_lock i AuLsc_DI_CHILD2
        = some ({ i with ii_rwsem := { i.ii_rwsem with
                    readers := AuLsc_II_CHILD2 :: i.ii_rwsem.readers } },
            [LockEvent.ii (rw_op.read_lock AuLsc_II_CHILD2)])
      ∧ do_ii_read_lock i AuLsc_DI_CHILD3
        = some ({ i with ii_rwsem := { i.ii_rwsem with
                    readers := AuLsc_II_CHILD3 :: i.ii_rwsem.readers } },
            [LockEvent.ii (rw_op.read_lock AuLsc_II_CHILD3)])
      ∧ do_ii_read_lock i AuLsc_DI_PARENT
        = some ({ i with ii_rwsem := { i.ii_rwsem with
                    readers := AuLsc_II_PARENT :: i.ii_rwsem.readers } },
            [LockEvent.ii (rw_op.read_lock AuLsc_II_PARENT)])
      ∧ do_ii_read_lock i AuLsc_DI_PARENT2
        = some ({ i with ii_rwsem := { i.ii_rwsem with
                    readers := AuLsc_II_PARENT2 :: i.ii_rwsem.readers } },
            [LockEvent.ii (rw_op.read_lock AuLsc_II_PARENT2)])
      ∧ do_ii_read_lock i AuLsc_DI_PARENT3
        = some ({ i with ii_rwsem := { i.ii_rwsem with
                    readers := AuLsc_II_PARENT3 :: i.ii_rwsem.readers } },
            [LockEvent.ii (rw_op.read_lock AuLsc_II_PARENT3)]))
    ∧ di_lock_positions.Nodup ∧ di_lock_positions.length = 6
    ∧ ii_lock_positions.Nodup ∧ ii_lock_positions.length = 6
    ∧ (∀ lsc : Nat, do_ii_write_lock i lsc = none ↔ lsc ∉ di_lock_positions)
    ∧ (∀ lsc : Nat, do_ii_read_lock i lsc = none ↔ lsc ∉ di_lock_positions) := by
  refine ⟨⟨rfl, rfl, rfl, rfl, rfl, rfl⟩, ⟨rfl, rfl, rfl, rfl, rfl, rfl⟩, by decide, rfl,
    by decide, rfl, fun lsc => ?_, fun lsc => ?_⟩
  · constructor
    · intro h hpos
      rw [do_ii_write_lock_at i hpos] at h
      cases h
    · intro hpos
      simp only [di_lock_positions, List.mem_cons, List.mem_singleton, List.not_mem_nil,
        or_false, not_or] at hpos
      obtain ⟨h1, h2, h3, h4, h5, h6⟩ := hpos
      simp only [do_ii_write_lock, h1, h2, h3, h4, h5, h6, if_false]
  · constructor
    · intro h hpos
      rw [do_ii_read_lock_at i hpos] at h
      cases h
    · intro hpos
      simp only [di_lock_positions, List.mem_cons, List.mem_singleton, List.not_mem_nil,
        or_false, not_or] at hpos
      obtain ⟨h1, h2, h3, h4, h5, h6⟩ := hpos
      simp only [do_ii_read_lock, h1, h2, h3, h4, h5, h6, if_false]

/-! ## Coupled path and inode locks -/

/-- C15. For every flag set and each of the six positions, `di_read_lock`
read-locks the path lock at that position and then, when the dentry has an inode,
write-locks the inode lock if the flags hold `AuLock_IW`, read-locks it if they
hold `AuLock_IR` only, and leaves it alone otherwise, at the same position.
`di_read_unlock` with the same flags then releases exactly these locks, the inode
lock first and the path lock second, and the dentry is again as it was before
the pair. The inode lock is assumed to have no writer beforehand. -/
theorem di_read_lock_then_unlock (d : dentry) (dinfo : au_dinfo) (flags lsc : Nat)
    (hdi : au_di d = some dinfo) (hpos : lsc ∈ di_lock_positions)
    (hfree : ∀ i, d.d_inode = some i → i.ii_rwsem.writer = none) :
    ∃ d1 evs1 evs2,
      di_read_lock d flags lsc = some (d1, evs1)
      ∧ d1.d_sb = d.d_sb
      ∧ au_di d1 = some { dinfo with
          di_rwsem := { dinfo.di_rwsem with readers := lsc :: dinfo.di_rwsem.readers } }
      ∧ (d.d_inode = none →
          d1.d_inode = none
          ∧ evs1 = [LockEvent.di (rw_op.read_lock lsc)]
          ∧ evs2 = [LockEvent.di rw_op.read_unlock])
      ∧ (∀ i, d.d_inode = some i →
          (au_ftest_lock flags AuLock_IW = true →
            d1.d_inode = some { i with ii_rwsem := { i.ii_rwsem with writer := some lsc } }
            ∧ evs1 = [LockEvent.di (rw_op.read_lock lsc), LockEvent.ii (rw_op.write_lock lsc)]
            ∧ evs2 = [LockEvent.ii rw_op.write_unlock, LockEvent.di rw_op.read_unlock])
          ∧ (au_ftest_lock flags AuLock_IW = false → au_ftest_lock flags AuLock_IR = true →
            d1.d_inode = some { i with ii_rwsem := { i.ii_rwsem with
              readers := lsc :: i.ii_rwsem.readers } }
            ∧ evs1 = [LockEvent.di (rw_op.read_lock lsc), LockEvent.ii (rw_op.read_lock lsc)]
            ∧ evs2 = [LockEvent.ii rw_op.read_unlock, LockEvent.di rw_op.read_unlock])
          ∧ (au_ftest_lock flags AuLock_IW = false → au_ftest_lock flags AuLock_IR = false →
            d1.d_inode = some i
            ∧ evs1 = [LockEvent.di (rw_op.read_lock lsc)]
            ∧ evs2 = [LockEvent.di rw_op.read_unlock]))
      ∧ di_read_unlock d1 flags = some (d, evs2) := by
  obtain ⟨sb, ino, fs⟩ := d
  simp only [au_di] at hdi
  subst hdi
  obtain ⟨gen, ⟨dw, dr⟩, bs, be, bw, hdp⟩ := dinfo
  cases ino with
  | none =>
    exact ⟨⟨sb, none, some ⟨gen, ⟨dw, lsc :: dr⟩, bs, be, bw, hdp⟩⟩,
      [LockEvent.di (rw_op.read_lock lsc)], [LockEvent.di rw_op.read_unlock],
      rfl, rfl, rfl, fun _ => ⟨rfl, rfl, rfl⟩, (by intro i h; cases h), rfl⟩
  | some i =>
    obtain ⟨⟨iw, ir⟩, igen⟩ := i
    have hw : iw = none := hfree _ rfl
    subst hw
    cases hIW : au_ftest_lock flags AuLock_IW with
    | true =>
      refine ⟨⟨sb, some ⟨⟨some lsc, ir⟩, igen⟩, some ⟨gen, ⟨dw, lsc :: dr⟩, bs, be, bw, hdp⟩⟩,
        [LockEvent.di (rw_op.read_lock lsc), LockEvent.ii (rw_op.write_lock lsc)],
        [LockEvent.ii rw_op.write_unlock, LockEvent.di rw_op.read_unlock], ?_, rfl,
        rfl, (by intro h; cases h), ?_, ?_⟩
      · simp only [di_read_lock, au_di, hIW, if_true, do_ii_write_lock_at _ hpos]
        rfl
      · intro i1 h1
        cases h1
        exact ⟨fun _ => ⟨rfl, rfl, rfl⟩, (by intro h; cases h), (by intro h; cases h)⟩
      · simp only [di_read_unlock, hIW, if_true]
        rfl
    | false =>
      cases hIR : au_ftest_lock flags AuLock_IR with
      | true =>
        refine ⟨⟨sb, some ⟨⟨none, lsc :: ir⟩, igen⟩,
            some ⟨gen, ⟨dw, lsc :: dr⟩, bs, be, bw, hdp⟩⟩,
          [LockEvent.di (rw_op.read_lock lsc), LockEvent.ii (rw_op.read_lock lsc)],
          [LockEvent.ii rw_op.read_unlock, LockEvent.di rw_op.read_unlock], ?_, rfl,
          rfl, (by intro h; cases h), ?_, ?_⟩
        · simp only [di_read_lock, au_di, hIW, hIR, if_true, do_ii_read_lock_at _ hpos]
          rfl
        · intro i1 h1
          cases h1
          exact ⟨(by intro h; cases h), fun _ _ => ⟨rfl, rfl, rfl⟩, (by intro _ h; cases h)⟩
        · simp only [di_read_unlock, hIW, hIR, if_true]
          rfl
      | false =>
        refine ⟨⟨sb, some ⟨⟨none, ir⟩, igen⟩, some ⟨gen, ⟨dw, lsc :: dr⟩, bs, be, bw, hdp⟩⟩,
          [LockEvent.di (rw_op.read_lock lsc)],
          [LockEvent.di rw_op.read_unlock], ?_, rfl,
          rfl, (by intro h; cases h), ?_, ?_⟩
        · simp only [di_read_lock, au_di, hIW, hIR]
          rfl
        · intro i1 h1
          cases h1
          exact ⟨(by intro h; cases h), (by intro _ h; cases h), fun _ _ => ⟨rfl, rfl, rfl⟩⟩
        · simp only [di_read_unlock, hIW, hIR]
          rfl

/-- Witness for C15: the flags hold `AuLock_IW`, the position is Parent, and the
dentry has an inode whose lock is free. -/
theorem di_read_lock_then_unlock_witness :
    ∃ d1 evs1 evs2,
      di_read_lock ex_unlocked_dentry AuLock_IW AuLsc_DI_PARENT = some (d1, evs1)
      ∧ (au_ftest_lock AuLock_IW AuLock_IW = true →
          evs1 = [LockEvent.di (rw_op.read_lock AuLsc_DI_PARENT),
                  LockEvent.ii (rw_op.write_lock AuLsc_DI_PARENT)]
          ∧ evs2 = [LockEvent.ii rw_op.write_unlock, LockEvent.di rw_op.read_unlock])
      ∧ di_read_unlock d1 AuLock_IW = some (ex_unlocked_dentry, evs2) := by
  obtain ⟨d1, evs1, evs2, h1, _, _, _, h5, h6⟩ :=
    di_read_lock_then_unlock ex_unlocked_dentry { ex_ranged with di_rwsem := ⟨none, []⟩ }
      AuLock_IW AuLsc_DI_PARENT rfl (by decide) (by intro i h; cases h; rfl)
  exact ⟨d1, evs1, evs2, h1, fun h => ((h5 ex_inode rfl).1 h).2, h6⟩

/-- C16. For each of the six positions, `di_write_lock` write-locks the path lock
at that position and, exactly when the dentry has an inode, then write-locks the
inode lock at the same position; the function takes no flags. `di_write_unlock`
then releases the inode write lock first and the path write lock second, and the
dentry is again as it was before the pair. Both locks are assumed to have no
writer beforehand. -/
theorem di_write_lock_then_unlock (d : dentry) (dinfo : au_dinfo) (lsc : Nat)
    (hdi : au_di d = some dinfo) (hpos : lsc ∈ di_lock_positions)
    (hdfree : dinfo.di_rwsem.writer = none)
    (hfree : ∀ i, d.d_inode = some i → i.ii_rwsem.writer = none) :
    ∃ d1 evs1 evs2,
      di_write_lock d lsc = some (d1, evs1)
      ∧ d1.d_sb = d.d_sb
      ∧ au_di d1 = some { dinfo with di_rwsem := { dinfo.di_rwsem with writer := some lsc } }
      ∧ (d.d_inode = none →
          d1.d_inode = none
          ∧ evs1 = [LockEvent.di (rw_op.write_lock lsc)]
          ∧ evs2 = [LockEvent.di rw_op.write_unlock])
      ∧ (∀ i, d.d_inode = some i →
          d1.d_inode = some { i with ii_rwsem := { i.ii_rwsem with writer := some lsc } }
          ∧ evs1 = [LockEvent.di (rw_op.write_lock lsc), LockEvent.ii (rw_op.write_lock lsc)]
          ∧ evs2 = [LockEvent.ii rw_op.write_unlock, LockEvent.di rw_op.write_unlock])
      ∧ di_write_unlock d1 = some (d, evs2) := by
  obtain ⟨sb, ino, fs⟩ := d
  simp only [au_di] at hdi
  subst hdi
  obtain ⟨gen, ⟨dw, dr⟩, bs, be, bw, hdp⟩ := dinfo
  simp only at hdfree
  subst hdfree
  cases ino with
  | none =>
    exact ⟨⟨sb, none, some ⟨gen, ⟨some lsc, dr⟩, bs, be, bw, hdp⟩⟩,
      [LockEvent.di (rw_op.write_lock lsc)], [LockEvent.di rw_op.write_unlock],
      rfl, rfl, rfl, fun _ => ⟨rfl, rfl, rfl⟩, (by intro i h; cases h), rfl⟩
  | some i =>
    obtain ⟨⟨iw, ir⟩, igen⟩ := i
    have hw : iw = none := hfree _ rfl
    subst hw
    refine ⟨⟨sb, some ⟨⟨some lsc, ir⟩, igen⟩, some ⟨gen, ⟨some lsc, dr⟩, bs, be, bw, hdp⟩⟩,
      [LockEvent.di (rw_op.write_lock lsc), LockEvent.ii (rw_op.write_lock lsc)],
      [LockEvent.ii rw_op.write_unlock, LockEvent.di rw_op.write_unlock], ?_, rfl,
      rfl, (by intro h; cases h), ?_, rfl⟩
    · simp only [di_write_lock, au_di, do_ii_write_lock_at _ hpos]
      rfl
    · intro i1 h1
      cases h1
      exact ⟨rfl, rfl, rfl⟩

/-- Witness for C16: the position Child2 on a dentry with an inode, both locks
free. -/
theorem di_write_lock_then_unlock_witness :
    ∃ d1 evs1 evs2,
      di_write_lock ex_unlocked_dentry AuLsc_DI_CHILD2 = some (d1, evs1)
      ∧ evs1 = [LockEvent.di (rw_op.write_lock AuLsc_DI_CHILD2),
                LockEvent.ii (rw_op.write_lock AuLsc_DI_CHILD2)]
      ∧ evs2 = [LockEvent.ii rw_op.write_unlock, LockEvent.di rw_op.write_unlock]
      ∧ di_write_unlock d1 = some (ex_unlocked_dentry, evs2) := by
  obtain ⟨d1, evs1, evs2, h1, _, _, _, h5, h6⟩ :=
    di_write_lock_then_unlock ex_unlocked_dentry { ex_ranged with di_rwsem := ⟨none, []⟩ }
      AuLsc_DI_CHILD2 rfl (by decide) rfl (by intro i h; cases h; rfl)
  exact ⟨d1, evs1, evs2, h1, (h5 ex_inode rfl).2.1, (h5 ex_inode rfl).2.2, h6⟩

/-- C17 (as amended). `di_downgrade_lock` called while the path lock is
write-held converts the path lock to read-held, at the position it was taken.
When the dentry has an inode whose lock is write-held, the inode lock is
downgraded to read-held, before the path lock, exactly when the flags hold
`AuLock_IR`; without that flag the inode lock is left write-held. -/
theorem di_downgrade_lock_by_flag (d : dentry) (dinfo : au_dinfo) (flags lsc : Nat)
    (hdi : au_di d = some dinfo) (hheld : dinfo.di_rwsem.writer = some lsc)
    (hiheld : ∀ i, d.d_inode = some i → i.ii_rwsem.writer ≠ none) :
    ∃ d1 evs,
      di_downgrade_lock d flags = some (d1, evs)
      ∧ d1.d_sb = d.d_sb
      ∧ au_di d1 = some { dinfo with
          di_rwsem := { writer := none, readers := lsc :: dinfo.di_rwsem.readers } }
      ∧ (d.d_inode = none → d1.d_inode = none ∧ evs = [LockEvent.di rw_op.dgrade_lock])
      ∧ (∀ i lsc2, d.d_inode = some i → i.ii_rwsem.writer = some lsc2 →
          (au_ftest_lock flags AuLock_IR = true →
            d1.d_inode = some { i with
              ii_rwsem := { writer := none, readers := lsc2 :: i.ii_rwsem.readers } }
            ∧ evs = [LockEvent.ii rw_op.dgrade_lock, LockEvent.di rw_op.dgrade_lock])
          ∧ (au_ftest_lock flags AuLock_IR = false →
            d1.d_inode = some i ∧ evs = [LockEvent.di rw_op.dgrade_lock])) := by
  obtain ⟨sb, ino, fs⟩ := d
  simp only [au_di] at hdi
  subst hdi
  obtain ⟨gen, ⟨dw, dr⟩, bs, be, bw, hdp⟩ := dinfo
  simp only at hheld
  subst hheld
  cases ino with
  | none =>
    exact ⟨⟨sb, none, some ⟨gen, ⟨none, lsc :: dr⟩, bs, be, bw, hdp⟩⟩,
      [LockEvent.di rw_op.dgrade_lock], rfl, rfl, rfl, fun _ => ⟨rfl, rfl⟩,
      (by intro i l h; cases h)⟩
  | some i =>
    obtain ⟨⟨iw, ir⟩, igen⟩ := i
    cases iw with
    | none => exact absurd rfl (hiheld _ rfl)
    | some l2 =>
      cases hIR : au_ftest_lock flags AuLock_IR with
      | true =>
        refine ⟨⟨sb, some ⟨⟨none, l2 :: ir⟩, igen⟩,
            some ⟨gen, ⟨none, lsc :: dr⟩, bs, be, bw, hdp⟩⟩,
          [LockEvent.ii rw_op.dgrade_lock, LockEvent.di rw_op.dgrade_lock], ?_, rfl, rfl,
          (by intro h; cases h), ?_⟩
        · simp only [di_downgrade_lock, hIR, if_true]
          rfl
        · intro i1 l3 h1 h2
          cases h1
          cases h2
          exact ⟨fun _ => ⟨rfl, rfl⟩, (by intro h; cases h)⟩
      | false =>
        refine ⟨⟨sb, some ⟨⟨some l2, ir⟩, igen⟩,
            some ⟨gen, ⟨none, lsc :: dr⟩, bs, be, bw, hdp⟩⟩,
          [LockEvent.di rw_op.dgrade_lock], ?_, rfl, rfl,
          (by intro h; cases h), ?_⟩
        · simp only [di_downgrade_lock, hIR]
          rfl
        · intro i1 l3 h1 h2
          cases h1
          cases h2
          exact ⟨(by intro h; cases h), fun _ => ⟨rfl, rfl⟩⟩

/-- Witness for C17: both locks write-held at the position Child, downgraded
with the flag `AuLock_IR`. -/
theorem di_downgrade_lock_by_flag_witness :
    ∃ d1 evs,
      di_downgrade_lock ex_write_locked_dentry AuLock_IR = some (d1, evs)
      ∧ au_di d1 = some { ex_ranged with di_rwsem := ⟨none, [AuLsc_DI_CHILD]⟩ }
      ∧ d1.d_inode = some { ii_rwsem := ⟨none, [AuLsc_II_CHILD]⟩, ii_generation := 4 }
      ∧ evs = [LockEvent.ii rw_op.dgrade_lock, LockEvent.di rw_op.dgrade_lock] := by
  obtain ⟨d1, evs, h1, _, h3, _, h5⟩ :=
    di_downgrade_lock_by_flag ex_write_locked_dentry
      { ex_ranged with di_rwsem := ⟨some AuLsc_DI_CHILD, []⟩ } AuLock_IR AuLsc_DI_CHILD rfl rfl
      (by intro i h; cases h; decide)
  have h := (h5 { ii_rwsem := ⟨some AuLsc_II_CHILD, []⟩, ii_generation := 4 } AuLsc_II_CHILD
    rfl rfl).1 (by decide)
  exact ⟨d1, evs, h1, h3, h.1, h.2⟩

/-- C17 (counterexample). Path lock and inode lock are both write-held at the
position Child, as `di_write_lock` leaves them. `di_downgrade_lock` with the
empty flag set, and likewise with the flag `AuLock_IW` alone, converts the path
lock only: the inode lock is still write-held and has no reader. -/
theorem di_downgrade_lock_counterexample :
    di_write_lock ex_unlocked_dentry AuLsc_DI_CHILD
      = some (ex_write_locked_dentry,
          [LockEvent.di (rw_op.write_lock AuLsc_DI_CHILD),
           LockEvent.ii (rw_op.write_lock AuLsc_DI_CHILD)])
    ∧ di_downgrade_lock ex_write_locked_dentry 0
      = some ({ ex_write_locked_dentry with
                  d_fsdata := some { ex_ranged with di_rwsem := ⟨none, [AuLsc_DI_CHILD]⟩ } },
              [LockEvent.di rw_op.dgrade_lock])
    ∧ di_downgrade_lock ex_write_locked_dentry AuLock_IW
      = di_downgrade_lock ex_write_locked_dentry 0
    ∧ ∃ d1 evs i1, di_downgrade_lock ex_write_locked_dentry 0 = some (d1, evs)
        ∧ d1.d_inode = some i1
        ∧ i1.ii_rwsem.writer = some AuLsc_II_CHILD
        ∧ i1.ii_rwsem.readers = []
        ∧ ¬ (i1.ii_rwsem.writer = none ∧ i1.ii_rwsem.readers = [AuLsc_II_CHILD]) := by
  refine ⟨by decide, by decide, by decide,
    { ex_write_locked_dentry with
        d_fsdata := some { ex_ranged with di_rwsem := ⟨none, [AuLsc_DI_CHILD]⟩ } },
    [LockEvent.di rw_op.dgrade_lock],
    { ii_rwsem := ⟨some AuLsc_II_CHILD, []⟩, ii_generation := 4 },
    by decide, by decide, by decide, by decide, by decide⟩

/-! ## Frame conditions -/

/-- C19. `au_set_h_dptr(dentry, bindex, h_dentry)` changes nothing but slot
`bindex`: `di_bstart`, `di_bend`, `di_bwh`, `di_generation`, the lock, the number
of slots and every other slot are unchanged, as are the super block and the inode
of the dentry; and when `h_dentry` is NULL the slot keeps its previous `hd_id`
instead of being reset to -1. -/
theorem au_set_h_dptr_frame (d : dentry) (dinfo : au_dinfo) (bindex : Int)
    (hd : au_hdentry) (h_dentry : Option Nat)
    (hdi : au_di d = some dinfo)
    (hslot : hdentry_at dinfo.di_hdentry bindex = some hd)
    (hbr : h_dentry ≠ none → ∃ br, au_sbr d.d_sb bindex = some br) :
    ∃ d1 di1 evs,
      au_set_h_dptr d bindex h_dentry = some (d1, evs)
      ∧ au_di d1 = some di1
      ∧ d1.d_sb = d.d_sb ∧ d1.d_inode = d.d_inode
      ∧ di1.di_bstart = dinfo.di_bstart ∧ di1.di_bend = dinfo.di_bend
      ∧ di1.di_bwh = dinfo.di_bwh ∧ di1.di_generation = dinfo.di_generation
      ∧ di1.di_rwsem = dinfo.di_rwsem
      ∧ di1.di_hdentry.length = dinfo.di_hdentry.length
      ∧ (∀ j : Int, j ≠ bindex → hdentry_at di1.di_hdentry j = hdentry_at dinfo.di_hdentry j)
      ∧ (h_dentry = none →
          hdentry_at di1.di_hdentry bindex = some { hd_dentry := none, hd_id := hd.hd_id }) := by
  obtain ⟨h0, _, _⟩ := hdentry_at_eq_some hslot
  rw [au_set_h_dptr_eq hdi hslot]
  cases h_dentry with
  | none =>
    refine ⟨_, _, _, rfl, rfl, rfl, rfl, rfl, rfl, rfl, rfl, rfl, by simp, ?_, ?_⟩
    · intro j hj
      exact hdentry_at_set_other _ h0 (Ne.symm hj) _
    · intro _
      exact hdentry_at_set_self hslot _
  | some r =>
    obtain ⟨br, hb⟩ := hbr (by simp)
    simp only [hb, Option.map_some']
    refine ⟨_, _, _, rfl, rfl, rfl, rfl, rfl, rfl, rfl, rfl, rfl, by simp, ?_, ?_⟩
    · intro j hj
      exact hdentry_at_set_other _ h0 (Ne.symm hj) _
    · intro h
      cases h

/-- Witness for C19: slot 1 of the populated dentry, holding the reference 100
with the identity 7, is cleared. -/
theorem au_set_h_dptr_frame_witness :
    ∃ d1 di1 evs,
      au_set_h_dptr ex_populated 1 none = some (d1, evs)
      ∧ au_di d1 = some di1
      ∧ di1.di_bstart = -1 ∧ di1.di_bend = -1
      ∧ hdentry_at di1.di_hdentry 1 = some { hd_dentry := none, hd_id := 7 } := by
  obtain ⟨d1, di1, evs, h1, h2, _, _, h5, h6, _, _, _, _, _, h12⟩ :=
    au_set_h_dptr_frame ex_populated
      { ex_fresh with di_hdentry := [⟨none, -1⟩, ⟨some 100, 7⟩, ⟨none, -1⟩] }
      1 ⟨some 100, 7⟩ none rfl (by decide) (fun h => absurd rfl h)
  exact ⟨d1, di1, evs, h1, h2, h5, h6, h12 rfl⟩

/-- C20. `au_di_realloc` sizes the preserved part from `di_bend` alone. With
`used = max(di_bend + 1, 1)` slots inside the slot array and `used <= nbr < 2^28`,
the call returns and succeeds whenever the allocator does; after a successful call
the slots `0 .. used - 1` are unchanged at the same index, the slots
`used .. nbr - 1` are zero-filled, with a NULL reference and `hd_id = 0`, and
`di_bstart`, `di_bend`, `di_bwh` and `di_generation` are unchanged. The value of
`di_bstart` plays no part: with any other value `s` in its place the call returns
the same error and the same info, up to `di_bstart` being `s`. -/
theorem au_di_realloc_sized_by_bend (dinfo : au_dinfo) (nbr : Int) (ok : Bool) (s : Int)
    (hb : -1 ≤ dinfo.di_bend) (hsz : dinfo.di_bend + 1 < 2 ^ 28)
    (hlen : max (dinfo.di_bend + 1) 1 ≤ (dinfo.di_hdentry.length : Int))
    (hge : max (dinfo.di_bend + 1) 1 ≤ nbr) (hn : nbr < 2 ^ 28) :
    ∃ err dinfo1, au_di_realloc dinfo nbr ok = some (err, dinfo1)
      ∧ (ok = true → err = 0)
      ∧ (err = 0 →
          (∀ i : Int, 0 ≤ i → i < max (dinfo.di_bend + 1) 1 →
              hdentry_at dinfo1.di_hdentry i = hdentry_at dinfo.di_hdentry i)
          ∧ (∀ i : Int, max (dinfo.di_bend + 1) 1 ≤ i → i < nbr →
              hdentry_at dinfo1.di_hdentry i = some { hd_dentry := none, hd_id := 0 })
          ∧ dinfo1.di_bstart = dinfo.di_bstart ∧ dinfo1.di_bend = dinfo.di_bend
          ∧ dinfo1.di_bwh = dinfo.di_bwh ∧ dinfo1.di_generation = dinfo.di_generation)
      ∧ au_di_realloc { dinfo with di_bstart := s } nbr ok
          = some (err, { dinfo1 with di_bstart := s }) := by
  have hmod : nbr % 2 ^ 28 = nbr := by omega
  rw [au_di_realloc_eq dinfo nbr ok hb hsz hlen,
    au_di_realloc_eq { dinfo with di_bstart := s } nbr ok hb hsz hlen, hmod]
  by_cases hle : nbr ≤ max (dinfo.di_bend + 1) 1
  · rw [if_pos hle, if_pos hle]
    refine ⟨0, dinfo, rfl, fun _ => rfl, fun _ => ⟨fun _ _ _ => rfl, fun i h1 h2 => ?_,
      rfl, rfl, rfl, rfl⟩, rfl⟩
    omega
  · rw [if_neg hle, if_neg hle]
    cases ok with
    | false =>
      refine ⟨-ENOMEM, dinfo, rfl, (by intro h; cases h), fun h => ?_, rfl⟩
      exact absurd h (by decide)
    | true =>
      have hused : (List.take (max (dinfo.di_bend + 1) 1).toNat dinfo.di_hdentry).length
          = (max (dinfo.di_bend + 1) 1).toNat := by
        rw [List.length_take]; omega
      refine ⟨0, { dinfo with
          di_hdentry := dinfo.di_hdentry.take (max (dinfo.di_bend + 1) 1).toNat
            ++ List.replicate (nbr - max (dinfo.di_bend + 1) 1).toNat
                { hd_dentry := none, hd_id := 0 } }, rfl, fun _ => rfl,
        fun _ => ⟨?_, ?_, rfl, rfl, rfl, rfl⟩, rfl⟩
      · intro i hi0 hilt
        exact hdentry_at_take_append _ _ hi0 (by omega) (by omega)
      · intro i hige hilt
        exact hdentry_at_append_replicate _ _ (by rw [hused]; omega) (by rw [hused]; omega)

/-- Witness for C20: three slots, `di_bstart = 1`, `di_bend = 2`, resized to 5
slots, compared with the same info with `di_bstart = 0`. -/
theorem au_di_realloc_sized_by_bend_witness :
    ∃ err dinfo1, au_di_realloc ex_ranged 5 true = some (err, dinfo1)
      ∧ (true = true → err = 0)
      ∧ (err = 0 →
          (∀ i : Int, 0 ≤ i → i < max (ex_ranged.di_bend + 1) 1 →
              hdentry_at dinfo1.di_hdentry i = hdentry_at ex_ranged.di_hdentry i)
          ∧ (∀ i : Int, max (ex_ranged.di_bend + 1) 1 ≤ i → i < 5 →
              hdentry_at dinfo1.di_hdentry i = some { hd_dentry := none, hd_id := 0 })
          ∧ dinfo1.di_bstart = ex_ranged.di_bstart ∧ dinfo1.di_bend = ex_ranged.di_bend
          ∧ dinfo1.di_bwh = ex_ranged.di_bwh
          ∧ dinfo1.di_generation = ex_ranged.di_generation)
      ∧ au_di_realloc { ex_ranged with di_bstart := 0 } 5 true
          = some (err, { dinfo1 with di_bstart := 0 }) :=
  au_di_realloc_sized_by_bend ex_ranged 5 true 0 (by decide) (by decide) (by decide)
    (by decide) (by decide)

end Aufs
